import Mathlib

/-!
Verification of the omg-scotus parsing core against its specification.

The Python sources are shallowly embedded: Python strings become `List Char`
(the embedding works over ASCII data, which is all the parser consumes),
fallible code returns `Except PyError`, and each embedded definition keeps
the name of the source function it translates.  Regular-expression code is
embedded as deterministic scanners that reproduce the leftmost-match and
alternation-order semantics of Python `re` for the concrete patterns used
by the sources.
-/

abbrev Str := List Char

def cs (s : String) : Str := s.toList

/-- Python whitespace for `str.split` / `str.strip` / regex `\s`
(space, tab, newline, carriage return, vertical tab, form feed). -/
def isPyWS (c : Char) : Bool :=
  c = ' ' || c = '\t' || c = '\n' || c = '\r' || c = Char.ofNat 11 || c = Char.ofNat 12

/-- Python `\w` on the ASCII range: letters, digits, underscore. -/
def isWordChar (c : Char) : Bool :=
  c.isAlpha || c.isDigit || c = '_'

/-- Uppercase ASCII letter, the `[A-Z]` character class. -/
def isUpperAZ (c : Char) : Bool :=
  'A' ≤ c && c ≤ 'Z'

/-- Split on newline characters, keeping all segments
(helper for `pySplitlines`). -/
def splitOnNl : Str → List Str
  | [] => [[]]
  | c :: t =>
    if c = '\n' then [] :: splitOnNl t
    else
      match splitOnNl t with
      | [] => [[c]]
      | l :: ls => (c :: l) :: ls

/-- Python `str.splitlines` restricted to `\n` line boundaries (the only
boundary occurring in the parsed page text): no trailing empty line is
produced for a string that ends in a newline, and the empty string has no
lines at all. -/
def pySplitlines (s : Str) : List Str :=
  match splitOnNl s with
  | [] => []
  | ls =>
    if ls.getLast? = some [] then ls.dropLast else ls

/-- Python `str.strip()`. -/
def pyStrip (s : Str) : Str :=
  ((s.dropWhile isPyWS).reverse.dropWhile isPyWS).reverse

/-- Python `str.isnumeric` on the ASCII data handled here: nonempty and
all decimal digits. -/
def pyIsNumeric (s : Str) : Bool :=
  !s.isEmpty && s.all Char.isDigit

/-- Helper for `pyWords`: accumulate the current word (reversed). -/
def wordsAux : Str → Str → List Str
  | [], acc => if acc.isEmpty then [] else [acc.reverse]
  | c :: t, acc =>
    if isPyWS c then
      if acc.isEmpty then wordsAux t [] else acc.reverse :: wordsAux t []
    else wordsAux t (c :: acc)

/-- Python `str.split()` with no separator: whitespace-delimited words,
empty strings dropped. -/
def pyWords (s : Str) : List Str := wordsAux s []

/-- Join words with single spaces (`' '.join`). -/
def joinSp : List Str → Str
  | [] => []
  | [w] => w
  | w :: ws => w ++ ' ' :: joinSp ws

/-- helpers.remove_extra_whitespace: `' '.join(s.split())`. -/
def remove_extra_whitespace (s : Str) : Str := joinSp (pyWords s)

/-- The Python exceptions raised by the embedded sources.  A payload of
`none` on `notImplementedError` is a bare `raise NotImplementedError`. -/
inductive PyError
  | notImplementedError : Option Str → PyError
  | assertionError : Str → PyError
  | valueError : Str → PyError
  | attributeError : Str → PyError
  | indexError : PyError
  deriving DecidableEq, Repr

/-- helpers.require_non_none. -/
def require_non_none {α : Type} : Option α → Except PyError α
  | none => .error (.assertionError (cs "Expected non None value."))
  | some x => .ok x

/-- Python pySlice `s[a:b]` on character lists. -/
def pySlice (s : Str) (a b : Nat) : Str := (s.drop a).take (b - a)

/-- Parser.get_pdf_page_indices: walk the pages, assert that each pySlice of
the concatenated text equals the page text just re-extracted, and collect
the half-open ranges.  A bare `assert` failure is an `AssertionError` with
an empty message. -/
def pageIdxGo (pdfText : Str) (start : Nat) : List Str → Except PyError (List (Nat × Nat))
  | [] => .ok []
  | p :: ps =>
    let e := start + p.length
    if pySlice pdfText start e = p then
      match pageIdxGo pdfText e ps with
      | .ok r => .ok ((start, e) :: r)
      | .error err => .error err
    else .error (.assertionError [])

def get_pdf_page_indices (pdfText : Str) (pages : List Str) : Except PyError (List (Nat × Nat)) :=
  pageIdxGo pdfText 0 pages

/-- The ranges the indexer is specified to produce: one half-open range per
page, contiguous from the given offset. -/
def indexRanges (start : Nat) : List Str → List (Nat × Nat)
  | [] => []
  | p :: ps => (start, start + p.length) :: indexRanges (start + p.length) ps

/-- Each range begins where the previous one ended, starting at `n`. -/
def contiguousFrom : Nat → List (Nat × Nat) → Prop
  | _, [] => True
  | n, (a, b) :: t => a = n ∧ contiguousFrom b t

theorem slice_middle (pre rest : Str) (n : Nat) :
    pySlice (pre ++ rest) pre.length (pre.length + n) = rest.take n := by
  simp [pySlice, List.drop_left]

theorem pageIdxGo_join (pages : List Str) :
    ∀ pre : Str, pageIdxGo (pre ++ pages.flatten) pre.length pages =
      .ok (indexRanges pre.length pages) := by
  induction pages with
  | nil => intro pre; simp [pageIdxGo, indexRanges]
  | cons p ps ih =>
    intro pre
    have hslice : pySlice (pre ++ (p ++ ps.flatten)) pre.length (pre.length + p.length) = p := by
      have h1 := slice_middle pre (p ++ ps.flatten) p.length
      rwa [List.take_left] at h1
    have hrec := ih (pre ++ p)
    rw [show (pre ++ p).length = pre.length + p.length by simp, List.append_assoc] at hrec
    simp [pageIdxGo, indexRanges, hslice, hrec]

theorem indexRanges_contiguous (pages : List Str) :
    ∀ n, contiguousFrom n (indexRanges n pages) := by
  induction pages with
  | nil => intro n; simp [indexRanges, contiguousFrom]
  | cons p ps ih => intro n; exact ⟨rfl, ih _⟩

theorem indexRanges_slices (pages : List Str) :
    ∀ pre : Str,
      List.Forall₂ (fun r q => pySlice (pre ++ pages.flatten) r.1 r.2 = q)
        (indexRanges pre.length pages) pages := by
  induction pages with
  | nil => intro pre; simp [indexRanges]
  | cons p ps ih =>
    intro pre
    have hslice : pySlice (pre ++ (p ++ ps.flatten)) pre.length (pre.length + p.length) = p := by
      have h1 := slice_middle pre (p ++ ps.flatten) p.length
      rwa [List.take_left] at h1
    have hrec := ih (pre ++ p)
    rw [show (pre ++ p).length = pre.length + p.length by simp, List.append_assoc] at hrec
    simp only [List.flatten_cons, indexRanges]
    exact List.Forall₂.cons hslice hrec

/-- C6: for every ordered list of page texts, Parser.get_pdf_page_indices,
run on the concatenation produced from those same pages, returns (with its
eager per-page assertion passing) one half-open range per page, contiguous
and starting at offset 0, and slicing the concatenation by each range gives
back exactly that page's text.  A pySlice mismatch is, by the definition of
`pageIdxGo`, an immediate `AssertionError`, never tolerated. -/
theorem pageIndexer_spec (pages : List Str) :
    get_pdf_page_indices pages.flatten pages = .ok (indexRanges 0 pages) ∧
    contiguousFrom 0 (indexRanges 0 pages) ∧
    (indexRanges 0 pages).length = pages.length ∧
    List.Forall₂ (fun r q => pySlice pages.flatten r.1 r.2 = q) (indexRanges 0 pages) pages := by
  refine ⟨?_, indexRanges_contiguous pages 0, ?_, ?_⟩
  · have := pageIdxGo_join pages []
    simpa [get_pdf_page_indices] using this
  · have h := indexRanges_slices pages []
    simp at h
    exact h.length_eq
  · have h := indexRanges_slices pages []
    simpa using h

/-- fetcher.Stream (named FetchStream to avoid clashing with Mathlib). -/
inductive FetchStream
  | ORDERS | SLIP_OPINIONS | OPINIONS_RELATING_TO_ORDERS | DEBUG
  deriving DecidableEq, Repr

/-- _enums.DocumentType. -/
inductive DocumentType
  | ORDER_LIST | MISCELLANEOUS_ORDER | STAY_ORDER | RULES_ORDER
  | SLIP_OPINION | OPINION_RELATING_TO_ORDERS
  deriving DecidableEq, Repr

/-- _enums.OrderSectionType. -/
inductive OrderSectionType
  | CERTIORARI_SUMMARY_DISPOSITIONS | ORDERS_IN_PENDING_CASES
  | CERTIORARI_GRANTED | CERTIORARI_DENIED | HABEAS_CORPUS_DENIED
  | MANDAMUS_DENIED | REHEARINGS_DENIED
  deriving DecidableEq, Repr

/-- _enums.Disposition, in definition order (the order matters: the
disposition extractor maps regex group indices to members by position). -/
inductive Disposition
  | AFFIRMED | AFFIRMED_IN_PART | DISMISSED
  | DISMISSED_AS_IMPROVIDENTLY_GRANTED | DISMISSED_FOR_WANT_OF_JURISDICTION
  | REMANDED | REMANDED_IN_PART | REVERSED | REVERSED_IN_PART
  | VACATED | VACATED_IN_PART | GRANTED
  deriving DecidableEq, Repr

/-- justice.JusticeTag, in definition order (iteration over the enum in
`set_authorship` follows this order). -/
inductive JusticeTag
  | ROBERTS | THOMAS | BREYER | ALITO | SOTOMAYOR | KAGAN | GORSUCH
  | KAVANAUGH | BARRETT | JACKSON | GINSBURG | KENNEDY | SCALIA | SOUTER
  | PER_CURIAM
  deriving DecidableEq, Repr

/-- Iteration order of `for j in JusticeTag`. -/
def allJusticeTags : List JusticeTag :=
  [.ROBERTS, .THOMAS, .BREYER, .ALITO, .SOTOMAYOR, .KAGAN, .GORSUCH,
   .KAVANAUGH, .BARRETT, .JACKSON, .GINSBURG, .KENNEDY, .SCALIA, .SOUTER,
   .PER_CURIAM]

/-- The Justices marked `is_active=True` in justice.create_court. -/
def activeRoster : List JusticeTag :=
  [.ROBERTS, .THOMAS, .ALITO, .SOTOMAYOR, .KAGAN, .GORSUCH,
   .KAVANAUGH, .BARRETT, .JACKSON]

/-- opinion.OpinionType: the only OpinionType class in the sources
(opinion.py lines 19-27).  It has no PER_CURIAM, DECREE or
CONCURRENCE_AND_DISSENT member. -/
inductive OpinionType
  | STATEMENT | DISSENT | CONCURRENCE | STAY | SYLLABUS | PLURALITY | MAJORITY
  deriving DecidableEq, Repr

/-- Lookup in the defaultdict built by OrderListParserStrategy.parse:
a missing key reads as None. -/
def dictGet (d : List (Str × Str)) (k : Str) : Option Str :=
  match d.find? (fun kv => kv.1 = k) with
  | some kv => some kv.2
  | none => none

/-- `retv[k] = v` / `retv[k] += v` on the defaultdict: create the key on
first write, concatenate on later ones. -/
def dictAppend (d : List (Str × Str)) (k v : Str) : List (Str × Str) :=
  if (d.find? (fun kv => kv.1 = k)).isSome then
    d.map (fun kv => if kv.1 = k then (kv.1, kv.2 ++ v) else kv)
  else d ++ [(k, v)]

/-- Join lines with newlines (`'\n'.join`). -/
def joinNl : List Str → Str
  | [] => []
  | [l] => l
  | l :: ls => l ++ '\n' :: joinNl ls

/-- `'\n'.join(segment.splitlines()[:-1])`: crop the page-number line. -/
def cropLastLine (s : Str) : Str := joinNl ((pySplitlines s).dropLast)

/-- Loop body of OrderListParserStrategy.parse.  Mirrors the source: a page
is appended to `orders_text` when the title is `Miscellaneous Order`
(short-circuit: the last-line test is not evaluated) or when the title is
`Order List` and the page's last line, stripped, is numeric — cropping that
line first in the `Order List` case.  `segment.splitlines()[-1]` on an
empty page raises IndexError.  No other key is ever written. -/
def olGo (isMisc isOl : Bool) : List Str → List (Str × Str) → Except PyError (List (Str × Str))
  | [], acc => .ok acc
  | seg :: rest, acc =>
    if isMisc then
      olGo isMisc isOl rest
        (dictAppend acc (cs "orders_text") (if isOl then cropLastLine seg else seg))
    else if isOl then
      match (pySplitlines seg).getLast? with
      | none => .error .indexError
      | some l =>
        if pyIsNumeric (pyStrip l) then
          olGo isMisc isOl rest (dictAppend acc (cs "orders_text") (cropLastLine seg))
        else olGo isMisc isOl rest acc
    else olGo isMisc isOl rest acc

/-- parser.OrderListParserStrategy.parse. -/
def orderListStrategyParse (title : Str) (pages : List Str) : Except PyError (List (Str × Str)) :=
  olGo (title = cs "Miscellaneous Order") (title = cs "Order List") pages []

/-- parser.OrderListParserStrategy.get_object, modelled up to the
`require_non_none(parsed_dict['orders_text'])` check: the returned string
is the text handed to OrderRelease. -/
def orderListGetObject (title : Str) (pages : List Str) : Except PyError Str := do
  let d ← orderListStrategyParse title pages
  require_non_none (dictGet d (cs "orders_text"))

/-- The last-line page classification test of the order-list segmenter. -/
def lastLineNumeric (p : Str) : Bool :=
  pyIsNumeric (pyStrip ((pySplitlines p).getLastD []))

/-- The orders partition as the amended claim describes it: every page for
a Miscellaneous Order, the numeric-last-line pages with that line cropped
for an Order List, nothing otherwise; None when no page was appended. -/
def ordersPartitionSpec (title : Str) (pages : List Str) : Option Str :=
  if title = cs "Miscellaneous Order" then
    if pages.isEmpty then none else some pages.flatten
  else if title = cs "Order List" then
    let kept := pages.filter lastLineNumeric
    if kept.isEmpty then none else some (List.flatten (kept.map cropLastLine))
  else none

/-- The transformation the original claim asserts for opinion pages:
strip the first three lines. -/
def stripFirstThreeLines (p : Str) : Str := joinNl ((pySplitlines p).drop 3)

/-- The dict states reachable in OrderListParserStrategy.parse: either no
key or just the accumulated `orders_text`. -/
def accOf : Option Str → List (Str × Str)
  | none => []
  | some v => [(cs "orders_text", v)]

/-- The page texts the parse loop appends, in order. -/
def appendedSegs (m o : Bool) (pages : List Str) : List Str :=
  if m then pages.map (fun s => if o then cropLastLine s else s)
  else if o then (pages.filter lastLineNumeric).map cropLastLine
  else []

/-- Folding appended segments into the optional `orders_text` value. -/
def combineOrders (v : Option Str) (segs : List Str) : Option Str :=
  match segs with
  | [] => v
  | _ => some (v.getD [] ++ segs.flatten)

theorem dictAppend_accOf (v : Option Str) (s : Str) :
    dictAppend (accOf v) (cs "orders_text") s = accOf (some (v.getD [] ++ s)) := by
  cases v <;> simp [dictAppend, accOf]

theorem combineOrders_cons (v : Option Str) (s : Str) (segs : List Str) :
    combineOrders v (s :: segs) = combineOrders (some (v.getD [] ++ s)) segs := by
  cases segs <;> cases v <;> simp [combineOrders]

theorem splitOnNl_ne_nil (s : Str) : splitOnNl s ≠ [] := by
  cases s with
  | nil => simp [splitOnNl]
  | cons c t =>
    by_cases hc : c = '\n'
    · simp [splitOnNl, hc]
    · cases hsp : splitOnNl t <;> simp [splitOnNl, hc, hsp]

theorem pySplitlines_ne_nil {s : Str} (hs : s ≠ []) : pySplitlines s ≠ [] := by
  match s with
  | [] => exact absurd rfl hs
  | c :: t =>
    by_cases hc : c = '\n'
    · have h1 : splitOnNl (c :: t) = [] :: splitOnNl t := by simp [splitOnNl, hc]
      have h2 := splitOnNl_ne_nil t
      cases hsp : splitOnNl t with
      | nil => exact absurd hsp h2
      | cons l ls =>
        simp only [pySplitlines, h1, hsp]
        split <;> simp
    · cases hsp : splitOnNl t with
      | nil => exact absurd hsp (splitOnNl_ne_nil t)
      | cons l ls =>
        have h1 : splitOnNl (c :: t) = (c :: l) :: ls := by simp [splitOnNl, hc, hsp]
        cases ls with
        | nil =>
          simp only [pySplitlines, h1]
          split <;> simp_all
        | cons l2 ls2 =>
          simp only [pySplitlines, h1]
          split <;> simp

theorem olGo_ok_misc (o : Bool) (pages : List Str) :
    ∀ v, olGo true o pages (accOf v) = .ok (accOf (combineOrders v (appendedSegs true o pages))) := by
  induction pages with
  | nil => intro v; simp [olGo, appendedSegs, combineOrders]
  | cons seg rest ih =>
    intro v
    have hA : appendedSegs true o (seg :: rest) =
        (if o then cropLastLine seg else seg) :: appendedSegs true o rest := by
      simp [appendedSegs]
    simp only [olGo, if_true]
    rw [dictAppend_accOf, hA, combineOrders_cons]
    exact ih _

theorem olGo_ok_other (pages : List Str) :
    ∀ v, olGo false false pages (accOf v) = .ok (accOf v) := by
  induction pages with
  | nil => intro v; simp [olGo]
  | cons seg rest ih => intro v; simpa [olGo] using ih v

theorem olGo_ok_ol (pages : List Str) (h : ∀ p ∈ pages, p ≠ ([] : Str)) :
    ∀ v, olGo false true pages (accOf v) = .ok (accOf (combineOrders v (appendedSegs false true pages))) := by
  induction pages with
  | nil => intro v; simp [olGo, appendedSegs, combineOrders]
  | cons seg rest ih =>
    intro v
    have hrest : ∀ p ∈ rest, p ≠ ([] : Str) := fun p hp => h p (List.mem_cons_of_mem _ hp)
    have hseg : seg ≠ ([] : Str) := h seg (List.mem_cons_self _ _)
    have hlines := pySplitlines_ne_nil hseg
    cases hx : (pySplitlines seg).getLast? with
    | none => exact absurd (List.getLast?_eq_none_iff.mp hx) hlines
    | some l =>
      have hlast : (pySplitlines seg).getLastD [] = l := by
        rw [List.getLastD_eq_getLast?, hx]; rfl
      have hnum : lastLineNumeric seg = pyIsNumeric (pyStrip l) := by
        rw [lastLineNumeric, hlast]
      by_cases hn : pyIsNumeric (pyStrip l) = true
      · have hA : appendedSegs false true (seg :: rest) =
            cropLastLine seg :: appendedSegs false true rest := by
          simp [appendedSegs, List.filter_cons, hnum, hn]
        simp only [olGo, hx, hn, if_true, Bool.false_eq_true, if_false]
        rw [dictAppend_accOf, hA, combineOrders_cons]
        exact ih hrest _
      · have hA : appendedSegs false true (seg :: rest) = appendedSegs false true rest := by
          simp only [appendedSegs, List.filter_cons, hnum]
          simp [hn]
        simp only [olGo, hx, hn, Bool.false_eq_true, if_false]
        rw [hA]
        exact ih hrest v

theorem dictGet_accOf_opinions (w : Option Str) :
    dictGet (accOf w) (cs "opinions_text") = none := by
  cases w with
  | none => rfl
  | some v => rfl

theorem dictGet_accOf_orders (w : Option Str) :
    dictGet (accOf w) (cs "orders_text") = w := by
  cases w with
  | none => rfl
  | some v => rfl

/-- C1 (amended): in OrderListParserStrategy.parse, a page whose last line,
stripped, is purely numeric (or any page, when the title is `Miscellaneous
Order`) is appended to the `orders_text` partition, the page-number line
being cropped exactly when the title is `Order List`; a page that fails the
test is skipped entirely, and no `opinions_text` partition is ever
produced. -/
theorem orderList_segmenter_amended (title : Str) (pages : List Str)
    (h : ∀ p ∈ pages, p ≠ ([] : Str)) :
    ∃ d, orderListStrategyParse title pages = .ok d ∧
      dictGet d (cs "opinions_text") = none ∧
      dictGet d (cs "orders_text") = ordersPartitionSpec title pages := by
  by_cases hM : title = cs "Miscellaneous Order"
  · have hO : ¬ title = cs "Order List" := by rw [hM]; decide
    have hrun : orderListStrategyParse title pages =
        .ok (accOf (combineOrders none (appendedSegs true false pages))) := by
      rw [orderListStrategyParse, decide_eq_true hM, decide_eq_false hO]
      exact olGo_ok_misc false pages none
    refine ⟨_, hrun, dictGet_accOf_opinions _, ?_⟩
    rw [dictGet_accOf_orders, hM]
    have hA : appendedSegs true false pages = pages := by simp [appendedSegs]
    rw [hA]
    cases pages <;> simp [combineOrders, ordersPartitionSpec]
  · by_cases hO : title = cs "Order List"
    · have hrun : orderListStrategyParse title pages =
          .ok (accOf (combineOrders none (appendedSegs false true pages))) := by
        rw [orderListStrategyParse, decide_eq_true hO, decide_eq_false hM]
        exact olGo_ok_ol pages h none
      refine ⟨_, hrun, dictGet_accOf_opinions _, ?_⟩
      rw [dictGet_accOf_orders, hO]
      have hA : appendedSegs false true pages =
          (pages.filter lastLineNumeric).map cropLastLine := by simp [appendedSegs]
      rw [hA]
      have hMne : ¬ (cs "Order List" = cs "Miscellaneous Order") := by decide
      cases hk : pages.filter lastLineNumeric <;>
        simp [combineOrders, ordersPartitionSpec, hMne, hk]
    · have hrun : orderListStrategyParse title pages = .ok (accOf none) := by
        rw [orderListStrategyParse, decide_eq_false hO, decide_eq_false hM]
        exact olGo_ok_other pages none
      refine ⟨_, hrun, dictGet_accOf_opinions _, ?_⟩
      rw [dictGet_accOf_orders]
      simp [ordersPartitionSpec, hM, hO]

/-- Witness for the amended C1 theorem at a concrete two-page order list:
the first page ends in a page number and lands in `orders_text` with that
line cropped, the second is an opinion page and is dropped. -/
theorem orderList_segmenter_amended_witness :
    (∀ p ∈ [cs "21-100  FOO V. BAR \n 2 ",
            cs "SUPREME COURT OF THE UNITED STATES \nx \ny \nbody"], p ≠ ([] : Str)) ∧
    ∃ d, orderListStrategyParse (cs "Order List")
        [cs "21-100  FOO V. BAR \n 2 ",
         cs "SUPREME COURT OF THE UNITED STATES \nx \ny \nbody"] = .ok d ∧
      dictGet d (cs "opinions_text") = none ∧
      dictGet d (cs "orders_text") =
        ordersPartitionSpec (cs "Order List")
          [cs "21-100  FOO V. BAR \n 2 ",
           cs "SUPREME COURT OF THE UNITED STATES \nx \ny \nbody"] :=
  ⟨by decide, orderList_segmenter_amended _ _ (by decide)⟩

/-- Counterexample to C1 as stated: on an Order List containing one page
whose last line is not numeric (an embedded opinion page), parse returns a
dict with no entries at all — in particular the `opinions_text` entry is
None rather than the page with its first three lines stripped, refuting
the claimed opinions partition. -/
theorem orderList_segmenter_counterexample :
    orderListStrategyParse (cs "Order List")
        [cs "SUPREME COURT OF THE UNITED STATES \nNotice \nNo. 21-5050 \nOpinion body"] =
      .ok [] ∧
    dictGet [] (cs "opinions_text") = none ∧
    (none : Option Str) ≠
      some (stripFirstThreeLines
        (cs "SUPREME COURT OF THE UNITED STATES \nNotice \nNo. 21-5050 \nOpinion body")) := by
  refine ⟨by rfl, by rfl, by simp⟩

/-- C9: on an input titled `Order List` none of whose pages ends in a
purely numeric last line, parse yields a dict whose `orders_text` entry is
None, and get_object fails at `require_non_none` with the generic
AssertionError message `Expected non None value.`. -/
theorem orderList_no_orders_assertion (pages : List Str)
    (h1 : ∀ p ∈ pages, p ≠ ([] : Str))
    (h2 : ∀ p ∈ pages, lastLineNumeric p = false) :
    orderListStrategyParse (cs "Order List") pages = .ok [] ∧
    dictGet [] (cs "orders_text") = none ∧
    orderListGetObject (cs "Order List") pages =
      .error (.assertionError (cs "Expected non None value.")) := by
  have hM : ¬ (cs "Order List" = cs "Miscellaneous Order") := by decide
  have hfilter : pages.filter lastLineNumeric = [] := by
    rw [List.filter_eq_nil_iff]
    intro p hp
    simp [h2 p hp]
  have hrun : orderListStrategyParse (cs "Order List") pages =
      .ok (accOf (combineOrders none (appendedSegs false true pages))) := by
    rw [orderListStrategyParse, decide_eq_true rfl, decide_eq_false hM]
    exact olGo_ok_ol pages h1 none
  have hsegs : appendedSegs false true pages = [] := by
    simp [appendedSegs, hfilter]
  rw [hsegs] at hrun
  refine ⟨hrun, rfl, ?_⟩
  rw [orderListGetObject, hrun]
  rfl

/-- Witness for C9 at a single opinion-style page. -/
theorem orderList_no_orders_assertion_witness :
    (∀ p ∈ [cs "SUPREME COURT OF THE UNITED STATES \na \nb \nbody"], p ≠ ([] : Str)) ∧
    (∀ p ∈ [cs "SUPREME COURT OF THE UNITED STATES \na \nb \nbody"], lastLineNumeric p = false) ∧
    (orderListStrategyParse (cs "Order List")
        [cs "SUPREME COURT OF THE UNITED STATES \na \nb \nbody"] = .ok [] ∧
     dictGet [] (cs "orders_text") = none ∧
     orderListGetObject (cs "Order List")
        [cs "SUPREME COURT OF THE UNITED STATES \na \nb \nbody"] =
       .error (.assertionError (cs "Expected non None value."))) :=
  ⟨by decide, by decide, orderList_no_orders_assertion _ (by decide) (by decide)⟩

/-- Consume a literal, returning the remainder. -/
def eatLit : Str → Str → Option Str
  | [], s => some s
  | _ :: _, [] => none
  | c :: w, d :: s => if d = c then eatLit w s else none

/-- Does `s` start with the literal `w`? -/
def startsW (w s : Str) : Bool := (eatLit w s).isSome

/-- Greedy `\s*`: count and remainder. -/
def eatWSStar (s : Str) : Nat × Str :=
  ((s.takeWhile isPyWS).length, s.dropWhile isPyWS)

/-- Greedy `\s+`. -/
def eatWSPlus (s : Str) : Option (Nat × Str) :=
  let (n, r) := eatWSStar s
  if n = 0 then none else some (n, r)

/-- Plain substring search (`re.search` of a literal pattern). -/
def hasSub (pat : Str) : Str → Bool
  | [] => startsW pat []
  | c :: t => startsW pat (c :: t) || hasSub pat t

/-- helpers.remove_hyphenation worker: delete `-\n` when it is immediately
preceded and followed by word characters, consuming the surrounding word
runs exactly as the non-overlapping `re.sub` of `(\w+)-$\n(\w+)` does. -/
def remHyphAux : Nat → Str → Str
  | 0, s => s
  | _ + 1, [] => []
  | fuel + 1, c :: t =>
    if isWordChar c then
      let r1 := (c :: t).takeWhile isWordChar
      let rest := (c :: t).dropWhile isWordChar
      match rest with
      | '-' :: '\n' :: d :: rest2 =>
        if isWordChar d then
          let r2 := (d :: rest2).takeWhile isWordChar
          let rest3 := (d :: rest2).dropWhile isWordChar
          r1 ++ r2 ++ remHyphAux fuel rest3
        else r1 ++ remHyphAux fuel rest
      | _ => r1 ++ remHyphAux fuel rest
    else c :: remHyphAux fuel t

def remove_hyphenation (s : Str) : Str := remHyphAux (s.length + 1) s

/-- Alternative `,\s*J\s*\.\,` of helpers.remove_justice_titles. -/
def rjtAlt1 : Str → Option Nat
  | ',' :: s =>
    let (a, r) := eatWSStar s
    match r with
    | 'J' :: r2 =>
      let (b, r3) := eatWSStar r2
      match r3 with
      | '.' :: ',' :: _ => some (1 + a + 1 + b + 2)
      | _ => none
    | _ => none
  | _ => none

/-- Alternative `,\s*J\s*J\s*\.\,`. -/
def rjtAlt2 : Str → Option Nat
  | ',' :: s =>
    let (a, r) := eatWSStar s
    match r with
    | 'J' :: r2 =>
      let (b, r3) := eatWSStar r2
      match r3 with
      | 'J' :: r4 =>
        let (c2, r5) := eatWSStar r4
        match r5 with
        | '.' :: ',' :: _ => some (1 + a + 1 + b + 1 + c2 + 2)
        | _ => none
      | _ => none
    | _ => none
  | _ => none

/-- Alternative `,\s*C\s*\.\s*J\s*\.\,`. -/
def rjtAlt3 : Str → Option Nat
  | ',' :: s =>
    let (a, r) := eatWSStar s
    match r with
    | 'C' :: r2 =>
      let (b, r3) := eatWSStar r2
      match r3 with
      | '.' :: r4 =>
        let (c2, r5) := eatWSStar r4
        match r5 with
        | 'J' :: r6 =>
          let (d, r7) := eatWSStar r6
          match r7 with
          | '.' :: ',' :: _ => some (1 + a + 1 + b + 1 + c2 + 1 + d + 2)
          | _ => none
        | _ => none
      | _ => none
    | _ => none
  | _ => none

/-- Alternative `JUSTICE\s+`. -/
def rjtAlt4 (s : Str) : Option Nat :=
  match eatLit (cs "JUSTICE") s with
  | some r =>
    match eatWSPlus r with
    | some (n, _) => some (7 + n)
    | none => none
  | none => none

/-- Alternative `THE\s+(?=CHIEF)`: the lookahead consumes nothing. -/
def rjtAlt5 (s : Str) : Option Nat :=
  match eatLit (cs "THE") s with
  | some r =>
    match eatWSPlus r with
    | some (n, r2) => if startsW (cs "CHIEF") r2 then some (3 + n) else none
    | none => none
  | none => none

/-- Alternative `CHIEF\s+JUSTICE`. -/
def rjtAlt6 (s : Str) : Option Nat :=
  match eatLit (cs "CHIEF") s with
  | some r =>
    match eatWSPlus r with
    | some (n, r2) => if startsW (cs "JUSTICE") r2 then some (5 + n + 7) else none
    | none => none
  | none => none

/-- One attempt of the title-removal alternation, alternatives in source
order. -/
def rjtTry (s : Str) : Option Nat :=
  rjtAlt1 s <|> rjtAlt2 s <|> rjtAlt3 s <|> rjtAlt4 s <|> rjtAlt5 s <|> rjtAlt6 s

def rjtAux : Nat → Str → Str
  | 0, s => s
  | _ + 1, [] => []
  | fuel + 1, c :: t =>
    match rjtTry (c :: t) with
    | some n => rjtAux fuel ((c :: t).drop (max n 1))
    | none => c :: rjtAux fuel t

/-- helpers.remove_justice_titles: `re.sub` of the six-way alternation with
the empty replacement. -/
def remove_justice_titles (s : Str) : Str := rjtAux (s.length + 1) s

/-- helpers.chief_justice_to_last_name worker:
`string.replace('CHIEF JUSTICE', 'ROBERTS')`. -/
def replChiefAux : Nat → Str → Str
  | 0, s => s
  | _ + 1, [] => []
  | fuel + 1, c :: t =>
    if startsW (cs "CHIEF JUSTICE") (c :: t) then
      cs "ROBERTS" ++ replChiefAux fuel ((c :: t).drop 13)
    else c :: replChiefAux fuel t

def chief_justice_to_last_name (s : Str) : Str := replChiefAux (s.length + 1) s

/-- Does `\bPER\s+CURIAM` match at this position (the word boundary having
been checked by the caller)? -/
def perCuriamAt (s : Str) : Bool :=
  match eatLit (cs "PER") s with
  | some r =>
    match eatWSPlus r with
    | some (_, r2) => startsW (cs "CURIAM") r2
    | none => false
  | none => false

def pcAux : Str → Bool → Bool
  | [], _ => false
  | c :: t, bnd =>
    if bnd && perCuriamAt (c :: t) then true
    else pcAux t (!isWordChar c)

/-- `re.search(r'\bPER\s+CURIAM', s)`. -/
def hasPerCuriam (s : Str) : Bool := pcAux s true

/-- Maximal word-character runs of the string (accumulator reversed). -/
def wordRunsAux : Str → Str → List Str
  | [], acc => if acc.isEmpty then [] else [acc.reverse]
  | c :: t, acc =>
    if isWordChar c then wordRunsAux t (c :: acc)
    else if acc.isEmpty then wordRunsAux t []
    else acc.reverse :: wordRunsAux t []

def wordRuns (s : Str) : List Str := wordRunsAux s []

/-- A token matched by `\b(?!III)[A-Z]{4,}\b`: a maximal word run of four
or more uppercase letters not beginning with `III`. -/
def justiceTokenOK (w : Str) : Bool :=
  decide (4 ≤ w.length) && w.all isUpperAZ && !(startsW (cs "III") w)

/-- `re.findall(r'\b(?!III)[A-Z]{4,}\b', s)`. -/
def capsTokens (s : Str) : List Str := (wordRuns s).filter justiceTokenOK

/-- justice.JusticeTag.from_string: dictionary lookup, unknown strings
raising `NotImplementedError(f'String {s} not recognized as a Justice.')`. -/
def JusticeTag.from_string (s : Str) : Except PyError JusticeTag :=
  if s = cs "CHIEF JUSTICE" then .ok .ROBERTS
  else if s = cs "JUSTICE THOMAS" then .ok .THOMAS
  else if s = cs "JUSTICE BREYER" then .ok .BREYER
  else if s = cs "JUSTICE ALITO" then .ok .ALITO
  else if s = cs "JUSTICE SOTOMAYOR" then .ok .SOTOMAYOR
  else if s = cs "JUSTICE KAGAN" then .ok .KAGAN
  else if s = cs "JUSTICE GORSUCH" then .ok .GORSUCH
  else if s = cs "JUSTICE KAVANAUGH" then .ok .KAVANAUGH
  else if s = cs "JUSTICE BARRETT" then .ok .BARRETT
  else if s = cs "JUSTICE JACKSON" then .ok .JACKSON
  else if s = cs "JUSTICE GINSBURG" then .ok .GINSBURG
  else if s = cs "JUSTICE KENNEDY" then .ok .KENNEDY
  else if s = cs "JUSTICE SCALIA" then .ok .SCALIA
  else if s = cs "JUSTICE SOUTER" then .ok .SOUTER
  else if s = cs "PER CURIAM" then .ok .PER_CURIAM
  else if s = cs "ROBERTS" then .ok .ROBERTS
  else if s = cs "THOMAS" then .ok .THOMAS
  else if s = cs "BREYER" then .ok .BREYER
  else if s = cs "ALITO" then .ok .ALITO
  else if s = cs "SOTOMAYOR" then .ok .SOTOMAYOR
  else if s = cs "KAGAN" then .ok .KAGAN
  else if s = cs "GORSUCH" then .ok .GORSUCH
  else if s = cs "KAVANAUGH" then .ok .KAVANAUGH
  else if s = cs "BARRETT" then .ok .BARRETT
  else if s = cs "GINSBURG" then .ok .GINSBURG
  else if s = cs "KENNEDY" then .ok .KENNEDY
  else if s = cs "SCALIA" then .ok .SCALIA
  else if s = cs "SOUTER" then .ok .SOUTER
  else .error (.notImplementedError
    (some (cs "String " ++ s ++ cs " not recognized as a Justice.")))

def mapFromString : List Str → Except PyError (List JusticeTag)
  | [] => .ok []
  | w :: ws => do
    let t ← JusticeTag.from_string w
    let ts ← mapFromString ws
    pure (t :: ts)

/-- helpers.get_justices_from_sent. -/
def get_justices_from_sent (sent : Str) : Except PyError (List JusticeTag) :=
  let s1 := remove_hyphenation sent
  let s2 := remove_justice_titles s1
  let s3 := remove_extra_whitespace s2
  let s4 := chief_justice_to_last_name s3
  if hasPerCuriam s4 then .ok [.PER_CURIAM]
  else mapFromString (capsTokens s4)

/-- release.OpinionDocument.set_authorship.  The source's
`joiners == [None]` branch can never hold (the extracted list holds
JusticeTag values, never None) and so is omitted; unpacking an empty
extraction raises ValueError as `author, *joiners = ...` does. -/
def set_authorship (sent : Str) : Except PyError (JusticeTag × Option (List JusticeTag)) :=
  match get_justices_from_sent sent with
  | .error e => .error e
  | .ok [] => .error (.valueError
      (cs "not enough values to unpack (expected at least 1, got 0)"))
  | .ok (author :: joiners) =>
    if !joiners.isEmpty then .ok (author, some joiners)
    else if hasSub (cs "unanimous") sent then
      .ok (author, some (allJusticeTags.filter (fun j => j ≠ author && j ≠ .PER_CURIAM)))
    else .ok (author, none)

example : get_justices_from_sent (cs "THOMAS unanimous") = .ok [.THOMAS] := by rfl

example : get_justices_from_sent (cs "Statement of BREYER, J.") = .ok [.BREYER] := by rfl

example :
    get_justices_from_sent
      (cs "JUSTICE SOTOMAYOR, with whom JUSTICE BREYER and JUSTICE KAGAN join, dissenting") =
    .ok [.SOTOMAYOR, .BREYER, .KAGAN] := by rfl

/-- C3 counterexample: a successfully parsed attribution sentence whose
joiners contain the author.  `set_authorship` performs no deduplication or
author-exclusion on the explicit-joiners branch. -/
theorem authorship_invariant_counterexample :
    set_authorship (cs "ALITO ALITO") = .ok (.ALITO, some [.ALITO]) ∧
    JusticeTag.ALITO ∈ [JusticeTag.ALITO] :=
  ⟨by rfl, by simp⟩

/-- C3 (amended): every successfully parsed opinion has an author, the
first extracted Justice token; joiners, when present, are either exactly
the subsequent extracted tokens (which the code does not deduplicate and
from which it does not exclude the author) or, when the sentence says
"unanimous" and names no other Justice, the full tag enumeration minus the
author and PER_CURIAM, which contains neither the author nor a
duplicate. -/
theorem set_authorship_characterization (sent : Str) (a : JusticeTag)
    (js : Option (List JusticeTag)) (h : set_authorship sent = .ok (a, js)) :
    ∃ rest, get_justices_from_sent sent = .ok (a :: rest) ∧
      ((rest ≠ [] ∧ js = some rest) ∨
       (rest = [] ∧ hasSub (cs "unanimous") sent = true ∧
         js = some (allJusticeTags.filter (fun j => j ≠ a && j ≠ .PER_CURIAM)) ∧
         a ∉ allJusticeTags.filter (fun j => j ≠ a && j ≠ .PER_CURIAM) ∧
         (allJusticeTags.filter (fun j => j ≠ a && j ≠ .PER_CURIAM)).Nodup) ∨
       (rest = [] ∧ hasSub (cs "unanimous") sent = false ∧ js = none)) := by
  unfold set_authorship at h
  cases hg : get_justices_from_sent sent with
  | error e => rw [hg] at h; exact absurd h (by simp)
  | ok l =>
    rw [hg] at h
    cases l with
    | nil => exact absurd h (by simp)
    | cons author joiners =>
      refine ⟨joiners, ?_, ?_⟩
      · cases joiners with
        | nil =>
          simp only [List.isEmpty_nil, Bool.not_true, if_false, Bool.false_eq_true] at h
          split at h <;> simp_all
        | cons j1 jrest => simp_all
      · cases joiners with
        | nil =>
          simp only [List.isEmpty_nil, Bool.not_true, if_false, Bool.false_eq_true] at h
          split at h
          · rename_i hu
            rw [Except.ok.injEq, Prod.mk.injEq] at h
            obtain ⟨rfl, hjs⟩ := h
            refine Or.inr (Or.inl ⟨rfl, hu, hjs.symm, ?_, ?_⟩)
            · intro hmem
              have := (List.mem_filter.mp hmem).2
              simp_all
            · refine List.Nodup.filter _ ?_
              decide
          · rename_i hu
            simp only [Bool.not_eq_true] at hu
            rw [Except.ok.injEq, Prod.mk.injEq] at h
            obtain ⟨rfl, hjs⟩ := h
            exact Or.inr (Or.inr ⟨rfl, hu, hjs.symm⟩)
        | cons j1 jrest =>
          simp only [List.isEmpty_cons, Bool.not_false, if_true] at h
          exact Or.inl ⟨by simp, by simp_all⟩

/-- Witness for the amended C3 theorem on the three-Justice dissent
sentence shape. -/
theorem set_authorship_characterization_witness :
    set_authorship (cs "SOTOMAYOR with BREYER and KAGAN dissenting") =
      .ok (.SOTOMAYOR, some [.BREYER, .KAGAN]) ∧
    ∃ rest, get_justices_from_sent (cs "SOTOMAYOR with BREYER and KAGAN dissenting") =
        .ok (JusticeTag.SOTOMAYOR :: rest) ∧
      ((rest ≠ [] ∧ some [JusticeTag.BREYER, JusticeTag.KAGAN] = some rest) ∨
       (rest = [] ∧ hasSub (cs "unanimous") (cs "SOTOMAYOR with BREYER and KAGAN dissenting") = true ∧
         some [JusticeTag.BREYER, JusticeTag.KAGAN] =
           some (allJusticeTags.filter (fun j => j ≠ JusticeTag.SOTOMAYOR && j ≠ .PER_CURIAM)) ∧
         JusticeTag.SOTOMAYOR ∉
           allJusticeTags.filter (fun j => j ≠ JusticeTag.SOTOMAYOR && j ≠ .PER_CURIAM) ∧
         (allJusticeTags.filter (fun j => j ≠ JusticeTag.SOTOMAYOR && j ≠ .PER_CURIAM)).Nodup) ∨
       (rest = [] ∧ hasSub (cs "unanimous") (cs "SOTOMAYOR with BREYER and KAGAN dissenting") = false ∧
         some [JusticeTag.BREYER, JusticeTag.KAGAN] = none)) :=
  ⟨by rfl, set_authorship_characterization _ _ _ (by rfl)⟩

/-- C4 counterexample: an attribution sentence containing "unanimous" with
no explicit joiner tokens.  The joiners assigned include the retired
Justices (e.g. SCALIA), so they are not the current active roster minus
the author and PER_CURIAM. -/
theorem unanimous_roster_counterexample :
    set_authorship (cs "THOMAS unanimous") =
      .ok (.THOMAS, some [.ROBERTS, .BREYER, .ALITO, .SOTOMAYOR, .KAGAN, .GORSUCH,
        .KAVANAUGH, .BARRETT, .JACKSON, .GINSBURG, .KENNEDY, .SCALIA, .SOUTER]) ∧
    JusticeTag.SCALIA ∈
      [JusticeTag.ROBERTS, .BREYER, .ALITO, .SOTOMAYOR, .KAGAN, .GORSUCH,
       .KAVANAUGH, .BARRETT, .JACKSON, .GINSBURG, .KENNEDY, .SCALIA, .SOUTER] ∧
    JusticeTag.SCALIA ∉ activeRoster ∧
    [JusticeTag.ROBERTS, .BREYER, .ALITO, .SOTOMAYOR, .KAGAN, .GORSUCH,
     .KAVANAUGH, .BARRETT, .JACKSON, .GINSBURG, .KENNEDY, .SCALIA, .SOUTER] ≠
      activeRoster.filter (fun j => j ≠ JusticeTag.THOMAS && j ≠ .PER_CURIAM) :=
  ⟨by rfl, by decide, by decide, by decide⟩

/-- C4 (amended): when the attribution sentence contains "unanimous" and
yields exactly one Justice token (the author, with no explicit joiners),
the joiners assigned are the entire JusticeTag enumeration — retired
Justices included — minus the author and the PER_CURIAM sentinel, not the
active roster. -/
theorem unanimous_joiners_amended (sent : Str) (a : JusticeTag)
    (h1 : get_justices_from_sent sent = .ok [a])
    (h2 : hasSub (cs "unanimous") sent = true) :
    set_authorship sent =
      .ok (a, some (allJusticeTags.filter (fun j => j ≠ a && j ≠ .PER_CURIAM))) := by
  unfold set_authorship
  rw [h1]
  simp [h2]

/-- Witness for the amended C4 theorem. -/
theorem unanimous_joiners_amended_witness :
    get_justices_from_sent (cs "THOMAS unanimous") = .ok [JusticeTag.THOMAS] ∧
    hasSub (cs "unanimous") (cs "THOMAS unanimous") = true ∧
    set_authorship (cs "THOMAS unanimous") =
      .ok (JusticeTag.THOMAS,
        some (allJusticeTags.filter (fun j => j ≠ JusticeTag.THOMAS && j ≠ .PER_CURIAM))) :=
  ⟨by rfl, by rfl, unanimous_joiners_amended _ _ (by rfl) (by rfl)⟩

theorem startsW_cons (p : Char) (pr : Str) (y : Char) (ys : Str) :
    startsW (p :: pr) (y :: ys) = (decide (y = p) && startsW pr ys) := by
  simp only [startsW, eatLit]
  split <;> simp_all

theorem chiefDrop_facts :
    ∀ j, j < 13 → (cs "CHIEF JUSTICE").drop j ≠ [] ∧
      ((cs "CHIEF JUSTICE").drop j).head? ≠ some 'R' := by decide

theorem startsW_chiefdrop_ROBERTS (j : Nat) (hj : j < 13) (X : Str) :
    startsW ((cs "CHIEF JUSTICE").drop j) (cs "ROBERTS" ++ X) = false := by
  obtain ⟨hne, hhd⟩ := chiefDrop_facts j hj
  rw [show cs "ROBERTS" ++ X = 'R' :: (cs "OBERTS" ++ X) from rfl]
  rw [← List.head_cons_tail _ hne, startsW_cons]
  have hRne : ¬ ('R' = ((cs "CHIEF JUSTICE").drop j).head hne) := by
    intro hEq
    exact hhd (by rw [List.head?_eq_head hne, ← hEq])
  rw [decide_eq_false hRne, Bool.false_and]

theorem hasSub_chief_ROBERTS (X : Str) :
    hasSub (cs "CHIEF JUSTICE") (cs "ROBERTS" ++ X) = hasSub (cs "CHIEF JUSTICE") X := by
  rw [show cs "ROBERTS" ++ X = 'R' :: 'O' :: 'B' :: 'E' :: 'R' :: 'T' :: 'S' :: X from rfl]
  simp only [hasSub]
  rw [show cs "CHIEF JUSTICE" = 'C' :: cs "HIEF JUSTICE" from rfl]
  simp only [startsW_cons]
  simp

theorem replChief_pref :
    ∀ (fuel : Nat) (t : Str) (j : Nat), t.length < fuel → j < 13 →
      startsW ((cs "CHIEF JUSTICE").drop j) (replChiefAux fuel t) = true →
      startsW ((cs "CHIEF JUSTICE").drop j) t = true := by
  intro fuel
  induction fuel with
  | zero => intro t j h; omega
  | succ fuel ih =>
    intro t j hlen hj hst
    obtain ⟨hne, _⟩ := chiefDrop_facts j hj
    cases t with
    | nil =>
      rw [show replChiefAux (fuel + 1) [] = [] from rfl] at hst
      rw [← List.head_cons_tail _ hne] at hst
      simp [startsW, eatLit] at hst
    | cons c t' =>
      by_cases hm : startsW (cs "CHIEF JUSTICE") (c :: t') = true
      · rw [show replChiefAux (fuel + 1) (c :: t') =
              (if startsW (cs "CHIEF JUSTICE") (c :: t') then
                cs "ROBERTS" ++ replChiefAux fuel ((c :: t').drop 13)
              else c :: replChiefAux fuel t') from rfl, if_pos hm] at hst
        rw [startsW_chiefdrop_ROBERTS j hj] at hst
        exact absurd hst (by simp)
      · rw [show replChiefAux (fuel + 1) (c :: t') =
              (if startsW (cs "CHIEF JUSTICE") (c :: t') then
                cs "ROBERTS" ++ replChiefAux fuel ((c :: t').drop 13)
              else c :: replChiefAux fuel t') from rfl,
            if_neg hm] at hst
        rw [← List.head_cons_tail _ hne, startsW_cons] at hst ⊢
        rw [List.tail_drop] at hst ⊢
        rw [Bool.and_eq_true] at hst
        obtain ⟨hc, htail⟩ := hst
        have hstep : startsW ((cs "CHIEF JUSTICE").drop (j + 1)) t' = true := by
          by_cases hj13 : j + 1 < 13
          · exact ih t' (j + 1) (by simpa using Nat.lt_of_succ_lt_succ (Nat.lt_of_lt_of_le
              (Nat.succ_lt_succ (by simpa using hlen)) (le_refl _))) hj13 htail
          · have h13 : j + 1 = 13 := by omega
            rw [h13, show (cs "CHIEF JUSTICE").drop 13 = [] from rfl]
            rfl
        rw [hc, hstep]
        rfl

theorem replChief_noOccur :
    ∀ (fuel : Nat) (t : Str), t.length < fuel →
      hasSub (cs "CHIEF JUSTICE") (replChiefAux fuel t) = false := by
  intro fuel
  induction fuel with
  | zero => intro t h; omega
  | succ fuel ih =>
    intro t hlen
    cases t with
    | nil => rfl
    | cons c t' =>
      by_cases hm : startsW (cs "CHIEF JUSTICE") (c :: t') = true
      · rw [show replChiefAux (fuel + 1) (c :: t') =
              (if startsW (cs "CHIEF JUSTICE") (c :: t') then
                cs "ROBERTS" ++ replChiefAux fuel ((c :: t').drop 13)
              else c :: replChiefAux fuel t') from rfl, if_pos hm]
        rw [hasSub_chief_ROBERTS]
        exact ih _ (by simp at hlen ⊢; omega)
      · rw [show replChiefAux (fuel + 1) (c :: t') =
              (if startsW (cs "CHIEF JUSTICE") (c :: t') then
                cs "ROBERTS" ++ replChiefAux fuel ((c :: t').drop 13)
              else c :: replChiefAux fuel t') from rfl, if_neg hm]
        have h2 : hasSub (cs "CHIEF JUSTICE") (replChiefAux fuel t') = false :=
          ih t' (by simp at hlen; omega)
        have h1 : startsW (cs "CHIEF JUSTICE") (c :: replChiefAux fuel t') = false := by
          cases hS : startsW (cs "CHIEF JUSTICE") (c :: replChiefAux fuel t') with
          | false => rfl
          | true =>
            have := replChief_pref (fuel + 1) (c :: t') 0 hlen (by omega)
            rw [List.drop_zero] at this
            have hcontra := this (by
              rw [show replChiefAux (fuel + 1) (c :: t') =
                    (if startsW (cs "CHIEF JUSTICE") (c :: t') then
                      cs "ROBERTS" ++ replChiefAux fuel ((c :: t').drop 13)
                    else c :: replChiefAux fuel t') from rfl, if_neg hm]
              exact hS)
            exact absurd hcontra hm
        show (startsW (cs "CHIEF JUSTICE") (c :: replChiefAux fuel t') ||
          hasSub (cs "CHIEF JUSTICE") (replChiefAux fuel t')) = false
        rw [h1, h2]
        rfl

/-- C10 counterexample: the sentence `THE CHIEF JUSTICE, dissenting`
resolves to no Justice tag at all — not to ROBERTS — because
remove_justice_titles deletes the chief-justice mention before
chief_justice_to_last_name can rewrite it. -/
theorem chief_justice_counterexample :
    get_justices_from_sent (cs "THE CHIEF JUSTICE, dissenting") = .ok ([] : List JusticeTag) ∧
    JusticeTag.ROBERTS ∉ ([] : List JusticeTag) :=
  ⟨by rfl, by simp⟩

/-- C10 (amended): chief_justice_to_last_name itself does rewrite
unconditionally — it consults no date or roster, and no `CHIEF JUSTICE`
occurrence survives it — but inside get_justices_from_sent the Justice-title
removal runs first and deletes the mention, so a chief-justice reference
need not resolve to the ROBERTS tag: on `THE CHIEF JUSTICE, dissenting` the
extraction returns no tags. -/
theorem chief_justice_rewrite_amended :
    (∀ s : Str, hasSub (cs "CHIEF JUSTICE") (chief_justice_to_last_name s) = false) ∧
    get_justices_from_sent (cs "THE CHIEF JUSTICE, dissenting") = .ok ([] : List JusticeTag) := by
  refine ⟨fun s => replChief_noOccur (s.length + 1) s (by omega), by rfl⟩

/-- Scan every suffix with a position matcher (`re.search`). -/
def searchBy (f : Str → Bool) : Str → Bool
  | [] => f []
  | c :: t => f (c :: t) || searchBy f t

/-- Lowercase an ASCII string (for the `(?i)` flag). -/
def lowerStr (s : Str) : Str := s.map Char.toLower

/-- `Statement\s+of\s+` at a position. -/
def statementAt (s : Str) : Bool :=
  match eatLit (cs "Statement") s with
  | some r =>
    match eatWSPlus r with
    | some (_, r2) =>
      match eatLit (cs "of") r2 with
      | some r3 => (eatWSPlus r3).isSome
      | none => false
    | none => false
  | none => false

/-- `(?:dissent)\w+\b` at a position: `dissent` followed by at least one
word character (the trailing boundary after the maximal word run always
holds). -/
def dissentAt (s : Str) : Bool :=
  match eatLit (cs "dissent") s with
  | some (c :: _) => isWordChar c
  | _ => false

/-- `(?:concurr)\w+\b` at a position. -/
def concurrAt (s : Str) : Bool :=
  match eatLit (cs "concurr") s with
  | some (c :: _) => isWordChar c
  | _ => false

/-- `delivered\s+an\s+opinion` / `delivered\s+the\s+opinion` at a
position. -/
def deliveredAt (article : Str) (s : Str) : Bool :=
  match eatLit (cs "delivered") s with
  | some r =>
    match eatWSPlus r with
    | some (_, r2) =>
      match eatLit article r2 with
      | some r3 =>
        match eatWSPlus r3 with
        | some (_, r4) => startsW (cs "opinion") r4
        | none => false
      | none => false
    | none => false
  | none => false

/-- `ORDER\s+AND\s+JUDGMENT` case-insensitively (input already
lowercased). -/
def orderAndJudgmentAt (s : Str) : Bool :=
  match eatLit (cs "order") s with
  | some r =>
    match eatWSPlus r with
    | some (_, r2) =>
      match eatLit (cs "and") r2 with
      | some r3 =>
        match eatWSPlus r3 with
        | some (_, r4) => startsW (cs "judgment") r4
        | none => false
      | none => false
    | none => false
  | none => false

/-- The seven patterns of release.Opinion.get_type, in table order. -/
inductive TypePat
  | statement | dissent | concurrence | plurality | majority | perCuriam | decree
  deriving DecidableEq, Repr

def typePatMatches : TypePat → Str → Bool
  | .statement, s => searchBy statementAt s
  | .dissent, s => searchBy dissentAt s
  | .concurrence, s => searchBy concurrAt s
  | .plurality, s => searchBy (deliveredAt (cs "an")) s
  | .majority, s => searchBy (deliveredAt (cs "the")) s
  | .perCuriam, s => hasSub (cs "PER CURIAM") s
  | .decree, s => hasSub (cs "decree") (lowerStr s) || searchBy orderAndJudgmentAt (lowerStr s)

/-- Attribute lookup `OpinionType.<name>` on the enum of opinion.py: the
names the get_type table asks for that are not members raise
AttributeError. -/
def opinionTypeAttr (name : Str) : Except PyError OpinionType :=
  if name = cs "STATEMENT" then .ok .STATEMENT
  else if name = cs "DISSENT" then .ok .DISSENT
  else if name = cs "CONCURRENCE" then .ok .CONCURRENCE
  else if name = cs "STAY" then .ok .STAY
  else if name = cs "SYLLABUS" then .ok .SYLLABUS
  else if name = cs "PLURALITY" then .ok .PLURALITY
  else if name = cs "MAJORITY" then .ok .MAJORITY
  else .error (.attributeError name)

/-- The dict literal built at the top of release.Opinion.get_type: its
values are evaluated left to right on every call, so the reference to
`OpinionType.PER_CURIAM` is evaluated before any pattern is tried. -/
def getTypeTable : Except PyError (List (TypePat × OpinionType)) := do
  let v1 ← opinionTypeAttr (cs "STATEMENT")
  let v2 ← opinionTypeAttr (cs "DISSENT")
  let v3 ← opinionTypeAttr (cs "CONCURRENCE")
  let v4 ← opinionTypeAttr (cs "PLURALITY")
  let v5 ← opinionTypeAttr (cs "MAJORITY")
  let v6 ← opinionTypeAttr (cs "PER_CURIAM")
  let v7 ← opinionTypeAttr (cs "DECREE")
  pure [(.statement, v1), (.dissent, v2), (.concurrence, v3), (.plurality, v4),
        (.majority, v5), (.perCuriam, v6), (.decree, v7)]

/-- The `for k, v in d.items()` priority loop of get_type; no pattern
matching raises a bare NotImplementedError. -/
def typeSearch : List (TypePat × OpinionType) → Str → Except PyError OpinionType
  | [], _ => .error (.notImplementedError none)
  | (p, v) :: rest, text => if typePatMatches p text then .ok v else typeSearch rest text

/-- release.Opinion.get_type. -/
def get_type (text : Str) : Except PyError OpinionType := do
  let d ← getTypeTable
  typeSearch d (remove_hyphenation text)

/-- C2: release.Opinion.get_type evaluates `OpinionType.PER_CURIAM` while
building its pattern table, and opinion.py's OpinionType enum has no
PER_CURIAM (nor DECREE) member, so every call — whatever the attribution
sentence — raises AttributeError before any pattern is tried.  The claimed
priority classification (and the UnclassifiableOpinion failure for
unmatched sentences) is never reached. -/
theorem get_type_always_attribute_error (text : Str) :
    get_type text = .error (.attributeError (cs "PER_CURIAM")) := rfl

/-- The section labels recognized by _enums.OrderSectionType.from_string. -/
def recognizedSectionLabels : List Str :=
  [cs "CERTIORARI -- SUMMARY DISPOSITIONS", cs "CERTIORARI -- SUMMARY DISPOSITION",
   cs "ORDERS IN PENDING CASES", cs "ORDER IN PENDING CASE",
   cs "CERTIORARI GRANTED", cs "CERTIORARI DENIED", cs "HABEAS CORPUS DENIED",
   cs "MANDAMUS DENIED", cs "REHEARINGS DENIED", cs "REHEARING DENIED"]

/-- _enums.OrderSectionType.from_string: unknown labels raise a bare
NotImplementedError. -/
def OrderSectionType.from_string (label : Str) : Except PyError OrderSectionType :=
  if label = cs "CERTIORARI -- SUMMARY DISPOSITIONS" ∨
     label = cs "CERTIORARI -- SUMMARY DISPOSITION" then
    .ok .CERTIORARI_SUMMARY_DISPOSITIONS
  else if label = cs "ORDERS IN PENDING CASES" ∨ label = cs "ORDER IN PENDING CASE" then
    .ok .ORDERS_IN_PENDING_CASES
  else if label = cs "CERTIORARI GRANTED" then .ok .CERTIORARI_GRANTED
  else if label = cs "CERTIORARI DENIED" then .ok .CERTIORARI_DENIED
  else if label = cs "HABEAS CORPUS DENIED" then .ok .HABEAS_CORPUS_DENIED
  else if label = cs "MANDAMUS DENIED" then .ok .MANDAMUS_DENIED
  else if label = cs "REHEARINGS DENIED" ∨ label = cs "REHEARING DENIED" then
    .ok .REHEARINGS_DENIED
  else .error (.notImplementedError none)

/-- helpers.is_stay_order: the three conditions are computed before the
conjunction, so `splitlines()[0]` on an empty document raises IndexError
regardless of the title. -/
def is_stay_order (orderTitle : Str) (pages : List Str) : Except PyError Bool :=
  let cond1 := orderTitle.map Char.toUpper = cs "MISCELLANEOUS ORDER"
  let cond2 := pages.length = 1
  match (pySplitlines pages.flatten).head? with
  | none => .error .indexError
  | some l =>
    .ok (cond1 && cond2 && (remove_extra_whitespace l = cs "Supreme Court of the United States"))

/-- Parser.set_document_type: unknown titles on the ORDERS stream raise a
bare NotImplementedError. -/
def set_document_type (stream : FetchStream) (title : Str) (pages : List Str) :
    Except PyError DocumentType :=
  match stream with
  | .ORDERS =>
    if title = cs "Order List" then .ok .ORDER_LIST
    else if title = cs "Miscellaneous Order" then
      match is_stay_order title pages with
      | .error e => .error e
      | .ok true => .ok .STAY_ORDER
      | .ok false => .ok .ORDER_LIST
    else if startsW (cs "Rules") title then .ok .RULES_ORDER
    else .error (.notImplementedError none)
  | .SLIP_OPINIONS => .ok .SLIP_OPINION
  | .OPINIONS_RELATING_TO_ORDERS => .ok .OPINION_RELATING_TO_ORDERS
  | .DEBUG => .error (.notImplementedError none)

/-- The keys of the justice.JusticeTag.from_string dictionary. -/
def recognizedJusticeKeys : List Str :=
  [cs "CHIEF JUSTICE", cs "JUSTICE THOMAS", cs "JUSTICE BREYER", cs "JUSTICE ALITO",
   cs "JUSTICE SOTOMAYOR", cs "JUSTICE KAGAN", cs "JUSTICE GORSUCH",
   cs "JUSTICE KAVANAUGH", cs "JUSTICE BARRETT", cs "JUSTICE JACKSON",
   cs "JUSTICE GINSBURG", cs "JUSTICE KENNEDY", cs "JUSTICE SCALIA",
   cs "JUSTICE SOUTER", cs "PER CURIAM", cs "ROBERTS", cs "THOMAS", cs "BREYER",
   cs "ALITO", cs "SOTOMAYOR", cs "KAGAN", cs "GORSUCH", cs "KAVANAUGH",
   cs "BARRETT", cs "GINSBURG", cs "KENNEDY", cs "SCALIA", cs "SOUTER"]

/-- C8 counterexample: an unrecognized section label and an unrecognized
document title fail with the identical bare NotImplementedError — the
generic exception, with no payload telling the two root causes apart — and
an unrecognized Justice token fails with the same generic class (only its
message naming the string).  None of the three raises a dedicated
"unrecognized value" condition. -/
theorem unrecognized_value_counterexample :
    OrderSectionType.from_string (cs "PROHIBITION DENIED") =
      .error (.notImplementedError none) ∧
    set_document_type .ORDERS (cs "Opinion List") [] =
      .error (.notImplementedError none) ∧
    JusticeTag.from_string (cs "XIII") =
      .error (.notImplementedError
        (some (cs "String XIII not recognized as a Justice."))) :=
  ⟨by rfl, by rfl, by rfl⟩

/-- C8 (amended): every value-domain error fails by raising
NotImplementedError — a generic exception also used for unimplemented
paths — not a dedicated "unrecognized value" condition: bare for an
unrecognized section label or document title (the two being mutually
indistinguishable), and with a message naming the string for an
unrecognized Justice token. -/
theorem unrecognized_value_amended (label s title : Str) (pages : List Str)
    (hl : label ∉ recognizedSectionLabels)
    (hs : s ∉ recognizedJusticeKeys)
    (ht1 : title ≠ cs "Order List") (ht2 : title ≠ cs "Miscellaneous Order")
    (ht3 : startsW (cs "Rules") title = false) :
    OrderSectionType.from_string label = .error (.notImplementedError none) ∧
    JusticeTag.from_string s =
      .error (.notImplementedError
        (some (cs "String " ++ s ++ cs " not recognized as a Justice."))) ∧
    set_document_type .ORDERS title pages = .error (.notImplementedError none) := by
  refine ⟨?_, ?_, ?_⟩
  · simp only [recognizedSectionLabels, List.mem_cons, List.mem_singleton, not_or] at hl
    obtain ⟨a1, a2, a3, a4, a5, a6, a7, a8, a9, a10⟩ := hl
    simp [OrderSectionType.from_string, a1, a2, a3, a4, a5, a6, a7, a8, a9]
    simp_all
  · simp only [recognizedJusticeKeys, List.mem_cons, List.mem_singleton, not_or] at hs
    simp_all [JusticeTag.from_string]
  · simp [set_document_type, ht1, ht2, ht3]

/-- Witness for the amended C8 theorem at concrete unrecognized values. -/
theorem unrecognized_value_amended_witness :
    ((cs "PROHIBITION DENIED") ∉ recognizedSectionLabels) ∧
    ((cs "XIII") ∉ recognizedJusticeKeys) ∧
    ((cs "Opinion List") ≠ cs "Order List") ∧
    ((cs "Opinion List") ≠ cs "Miscellaneous Order") ∧
    (startsW (cs "Rules") (cs "Opinion List") = false) ∧
    (OrderSectionType.from_string (cs "PROHIBITION DENIED") =
        .error (.notImplementedError none) ∧
      JusticeTag.from_string (cs "XIII") =
        .error (.notImplementedError
          (some (cs "String " ++ cs "XIII" ++ cs " not recognized as a Justice."))) ∧
      set_document_type .ORDERS (cs "Opinion List") [] =
        .error (.notImplementedError none)) :=
  ⟨by decide, by decide, by decide, by decide, by rfl,
    unrecognized_value_amended _ _ _ _ (by decide) (by decide) (by decide) (by decide) (by rfl)⟩

/-- Length of `\s+IN\s+PART` at a position (None when the lookahead
`(?!\s+IN\s+PART)` would pass). -/
def inPartLen (s : Str) : Option Nat :=
  match eatWSPlus s with
  | none => none
  | some (n1, r1) =>
    match eatLit (cs "IN") r1 with
    | none => none
    | some r2 =>
      match eatWSPlus r2 with
      | none => none
      | some (n2, r3) => if startsW (cs "PART") r3 then some (n1 + 2 + n2 + 4) else none

def inPartAfter (s : Str) : Bool := (inPartLen s).isSome

/-- Length of `\s+as\s+improvidently\s+granted` at a position. -/
def improvLen (s : Str) : Option Nat :=
  match eatWSPlus s with
  | none => none
  | some (n1, r1) =>
    match eatLit (cs "as") r1 with
    | none => none
    | some r2 =>
      match eatWSPlus r2 with
      | none => none
      | some (n2, r3) =>
        match eatLit (cs "improvidently") r3 with
        | none => none
        | some r4 =>
          match eatWSPlus r4 with
          | none => none
          | some (n3, r5) =>
            if startsW (cs "granted") r5 then some (n1 + 2 + n2 + 13 + n3 + 7) else none

/-- Maximal run of `[^.!?]`. -/
def bracketRun (s : Str) : Nat :=
  (s.takeWhile (fun c => c ≠ '.' && c ≠ '!' && c ≠ '?')).length

/-- Greedy `[^.!?]+granted\.`: the largest i ≥ 1 within the class run such
that `granted.` follows, as the backtracking engine finds it. -/
def grantedDesc : Nat → Str → Option Nat
  | 0, _ => none
  | i + 1, s => if startsW (cs "granted.") (s.drop (i + 1)) then some (i + 1)
                else grantedDesc i s

def grantedSearch (s : Str) : Option Nat := grantedDesc (bracketRun s) s

/-- The `applications*\s+for\s+stays*[^.!?]+granted\.` alternative:
returns the full consumed length. -/
def stayGrantedLen (s : Str) : Option Nat :=
  match eatLit (cs "application") s with
  | none => none
  | some r =>
    let k1 := (r.takeWhile (fun c => c = 's')).length
    let r1 := r.drop k1
    match eatWSPlus r1 with
    | none => none
    | some (n1, r2) =>
      match eatLit (cs "for") r2 with
      | none => none
      | some r3 =>
        match eatWSPlus r3 with
        | none => none
        | some (n2, r4) =>
          match eatLit (cs "stay") r4 with
          | none => none
          | some r5 =>
            let k2 := (r5.takeWhile (fun c => c = 's')).length
            let r6 := r5.drop k2
            match grantedSearch r6 with
            | none => none
            | some i => some (11 + k1 + n1 + 3 + n2 + 4 + k2 + i + 8)

/-- One attempt of the helpers.get_disposition_type alternation at a
position, in the regex order of the source pattern.  The result pairs the
consumed length with the Disposition contributed through the group-index
table `d = {i: disposition for i, disposition in enumerate(Disposition)}`:
the plain DISMISSED alternative is not parenthesized, so it sets no group
and contributes nothing (this also swallows `DISMISSED for want of
jurisdiction`, whose own alternative is unreachable), and the group of
`DISMISSED IN PART` has index 2, which the table maps to
Disposition.DISMISSED. -/
def dispTry (s : Str) : Option (Nat × Option Disposition) :=
  match eatLit (cs "AFFIRMED") s with
  | some r =>
    match inPartLen r with
    | none => some (8, some .AFFIRMED)
    | some k => some (8 + k, some .AFFIRMED_IN_PART)
  | none =>
  match eatLit (cs "DISMISSED") s with
  | some r =>
    match inPartLen r, improvLen r with
    | some k, _ => some (9 + k, some .DISMISSED)
    | none, some k => some (9 + k, some .DISMISSED_AS_IMPROVIDENTLY_GRANTED)
    | none, none => some (9, none)
  | none =>
  match eatLit (cs "REMANDED") s with
  | some r =>
    match inPartLen r with
    | none => some (8, some .REMANDED)
    | some k => some (8 + k, some .REMANDED_IN_PART)
  | none =>
  match eatLit (cs "REVERSED") s with
  | some r =>
    match inPartLen r with
    | none => some (8, some .REVERSED)
    | some k => some (8 + k, some .REVERSED_IN_PART)
  | none =>
  match eatLit (cs "VACATED") s with
  | some r =>
    match inPartLen r with
    | none => some (7, some .VACATED)
    | some k => some (7 + k, some .VACATED_IN_PART)
  | none =>
  match stayGrantedLen s with
  | some n => some (n, some .GRANTED)
  | none => none

/-- The finditer scan of helpers.get_disposition_type. -/
def dispScanF : Nat → Str → List Disposition
  | 0, _ => []
  | _ + 1, [] => []
  | fuel + 1, c :: t =>
    match dispTry (c :: t) with
    | some (len, g) => g.toList ++ dispScanF fuel ((c :: t).drop (max len 1))
    | none => dispScanF fuel t

/-- helpers.get_disposition_type.  The source appends the `.name` strings
of the matched Disposition members; we return the members themselves, the
name map being a bijection on the enum. -/
def get_disposition_type (s : Str) : List Disposition := dispScanF (s.length + 1) s

example :
    get_disposition_type
      (cs "Adjudged to be AFFIRMED IN PART, REVERSED IN PART, and case REMANDED.") =
    [.AFFIRMED_IN_PART, .REVERSED_IN_PART, .REMANDED] := by rfl

example :
    get_disposition_type (cs "Writ of certiorari DISMISSED as improvidently granted.") =
    [.DISMISSED_AS_IMPROVIDENTLY_GRANTED] := by rfl

example :
    get_disposition_type (cs "Judgment REVERSED and case REMANDED.") =
    [.REVERSED, .REMANDED] := by rfl

theorem eatLit_self_append (w s : Str) : eatLit w (w ++ s) = some s := by
  induction w with
  | nil => rfl
  | cons c w ih => simp [eatLit, ih]

theorem dispScanF_fuel :
    ∀ (f1 : Nat) (s : Str) (f2 : Nat), s.length < f1 → s.length < f2 →
      dispScanF f1 s = dispScanF f2 s := by
  intro f1
  induction f1 with
  | zero => intro s f2 h; omega
  | succ f1 ih =>
    intro s f2 h1 h2
    cases s with
    | nil =>
      cases f2 with
      | zero => omega
      | succ f2 => rfl
    | cons c t =>
      cases f2 with
      | zero => omega
      | succ f2 =>
        simp only [dispScanF]
        cases hd : dispTry (c :: t) with
        | none =>
          exact ih t f2 (by simp at h1; omega) (by simp at h2; omega)
        | some lg =>
          obtain ⟨len, g⟩ := lg
          have hge : 1 ≤ max len 1 := le_max_right len 1
          have hL : ((c :: t).drop (max len 1)).length = (c :: t).length - max len 1 :=
            List.length_drop _ _
          have hlt : ((c :: t).drop (max len 1)).length < f1 := by
            rw [hL]; simp only [List.length_cons] at h1 ⊢; omega
          have hlt2 : ((c :: t).drop (max len 1)).length < f2 := by
            rw [hL]; simp only [List.length_cons] at h2 ⊢; omega
          dsimp only
          rw [ih _ f2 hlt hlt2]

theorem disp_glue (c : Char) (wt rest : Str) (len : Nat) (g : Option Disposition)
    (hlen : len = (c :: wt).length)
    (h : dispTry ((c :: wt) ++ rest) = some (len, g)) :
    get_disposition_type ((c :: wt) ++ rest) = g.toList ++ get_disposition_type rest := by
  have e : (c :: wt) ++ rest = c :: (wt ++ rest) := rfl
  unfold get_disposition_type
  rw [e] at h ⊢
  simp only [dispScanF]
  rw [h]
  dsimp only
  have hmax : max len 1 = len := by
    rw [hlen]; simp
  have hdrop : (c :: (wt ++ rest)).drop (max len 1) = rest := by
    rw [hmax, ← e, hlen]
    exact List.drop_left _ _
  rw [hdrop]
  have hfuel : dispScanF (c :: (wt ++ rest)).length rest = dispScanF (rest.length + 1) rest := by
    apply dispScanF_fuel
    · simp only [List.length_cons, List.length_append]
      omega
    · omega
  rw [hfuel]

theorem inPartLen_none_of_false {rest : Str} (h : inPartAfter rest = false) :
    inPartLen rest = none := by
  cases hk : inPartLen rest with
  | none => rfl
  | some k => rw [inPartAfter, hk] at h; simp at h

theorem dispTry_AFFIRMED (rest : Str) (h : inPartAfter rest = false) :
    dispTry (cs "AFFIRMED" ++ rest) = some (8, some .AFFIRMED) := by
  simp only [dispTry, eatLit_self_append, inPartLen_none_of_false h]

theorem dispTry_REMANDED (rest : Str) (h : inPartAfter rest = false) :
    dispTry (cs "REMANDED" ++ rest) = some (8, some .REMANDED) := by
  have eA : eatLit (cs "AFFIRMED") (cs "REMANDED" ++ rest) = none := rfl
  have eD : eatLit (cs "DISMISSED") (cs "REMANDED" ++ rest) = none := rfl
  simp only [dispTry, eA, eD, eatLit_self_append, inPartLen_none_of_false h]

theorem dispTry_REVERSED (rest : Str) (h : inPartAfter rest = false) :
    dispTry (cs "REVERSED" ++ rest) = some (8, some .REVERSED) := by
  have eA : eatLit (cs "AFFIRMED") (cs "REVERSED" ++ rest) = none := rfl
  have eD : eatLit (cs "DISMISSED") (cs "REVERSED" ++ rest) = none := rfl
  have eM : eatLit (cs "REMANDED") (cs "REVERSED" ++ rest) = none := rfl
  simp only [dispTry, eA, eD, eM, eatLit_self_append, inPartLen_none_of_false h]

theorem dispTry_VACATED (rest : Str) (h : inPartAfter rest = false) :
    dispTry (cs "VACATED" ++ rest) = some (7, some .VACATED) := by
  have eA : eatLit (cs "AFFIRMED") (cs "VACATED" ++ rest) = none := rfl
  have eD : eatLit (cs "DISMISSED") (cs "VACATED" ++ rest) = none := rfl
  have eM : eatLit (cs "REMANDED") (cs "VACATED" ++ rest) = none := rfl
  have eR : eatLit (cs "REVERSED") (cs "VACATED" ++ rest) = none := rfl
  simp only [dispTry, eA, eD, eM, eR, eatLit_self_append, inPartLen_none_of_false h]

theorem dispTry_DISMISSED_plain (rest : Str) (h1 : inPartAfter rest = false)
    (h2 : improvLen rest = none) :
    dispTry (cs "DISMISSED" ++ rest) = some (9, none) := by
  have eA : eatLit (cs "AFFIRMED") (cs "DISMISSED" ++ rest) = none := rfl
  simp only [dispTry, eA, eatLit_self_append, inPartLen_none_of_false h1, h2]

/-- C5 counterexample: a disposition text whose only occurrence is the
base verb DISMISSED, not followed by `IN PART`.  The extractor returns the
empty list — the plain-DISMISSED alternative of the source pattern is not
parenthesized, sets no group, and so contributes nothing — refuting the
claim that a base-verb occurrence contributes its base kind. -/
theorem disposition_DISMISSED_counterexample :
    get_disposition_type (cs "Writ of certiorari DISMISSED.") = [] ∧
    ([] : List Disposition) ≠ [Disposition.DISMISSED] :=
  ⟨by rfl, by simp⟩

/-- C5 (amended): the extractor returns the ordered list of matched
disposition kinds, and no single occurrence matches both a base verb and
its -IN-PART counterpart: an occurrence of AFFIRMED, REMANDED, REVERSED or
VACATED not followed by `IN PART` matches alone and contributes its base
kind, while one followed by `IN PART` contributes only the -IN-PART kind.
The DISMISSED alternatives are shifted by the un-parenthesized plain
alternative: an occurrence of DISMISSED followed by `IN PART` sets the
group of index 2, which the enumerate table maps to the base DISMISSED
kind - not DISMISSED_IN_PART (concretely, `DISMISSED IN PART` extracts
`[DISMISSED]`) - while a plain DISMISSED occurrence (not followed by
`IN PART` or `as improvidently granted`) sets no group and contributes
nothing. -/
theorem disposition_extractor_amended :
    (∀ rest, inPartAfter rest = false →
       get_disposition_type (cs "AFFIRMED" ++ rest) =
         .AFFIRMED :: get_disposition_type rest) ∧
    (∀ rest, inPartAfter rest = false →
       get_disposition_type (cs "REMANDED" ++ rest) =
         .REMANDED :: get_disposition_type rest) ∧
    (∀ rest, inPartAfter rest = false →
       get_disposition_type (cs "REVERSED" ++ rest) =
         .REVERSED :: get_disposition_type rest) ∧
    (∀ rest, inPartAfter rest = false →
       get_disposition_type (cs "VACATED" ++ rest) =
         .VACATED :: get_disposition_type rest) ∧
    (∀ rest n g, inPartAfter rest = true →
       dispTry (cs "AFFIRMED" ++ rest) = some (n, g) → g = some .AFFIRMED_IN_PART) ∧
    (∀ rest n g, inPartAfter rest = true →
       dispTry (cs "REMANDED" ++ rest) = some (n, g) → g = some .REMANDED_IN_PART) ∧
    (∀ rest n g, inPartAfter rest = true →
       dispTry (cs "REVERSED" ++ rest) = some (n, g) → g = some .REVERSED_IN_PART) ∧
    (∀ rest n g, inPartAfter rest = true →
       dispTry (cs "VACATED" ++ rest) = some (n, g) → g = some .VACATED_IN_PART) ∧
    (∀ rest n g, inPartAfter rest = true →
       dispTry (cs "DISMISSED" ++ rest) = some (n, g) → g = some .DISMISSED) ∧
    (get_disposition_type (cs "DISMISSED IN PART") = [Disposition.DISMISSED]) ∧
    (∀ rest, inPartAfter rest = false → improvLen rest = none →
       get_disposition_type (cs "DISMISSED" ++ rest) = get_disposition_type rest) := by
  have hipk : ∀ rest : Str, inPartAfter rest = true → ∃ k, inPartLen rest = some k := by
    intro rest h
    cases hk : inPartLen rest with
    | none => rw [inPartAfter, hk] at h; simp at h
    | some k => exact ⟨k, rfl⟩
  refine ⟨?_, ?_, ?_, ?_, ?_, ?_, ?_, ?_, ?_, ?_, ?_⟩
  · intro rest h
    exact disp_glue _ _ rest 8 (some .AFFIRMED) rfl (dispTry_AFFIRMED rest h)
  · intro rest h
    exact disp_glue _ _ rest 8 (some .REMANDED) rfl (dispTry_REMANDED rest h)
  · intro rest h
    exact disp_glue _ _ rest 8 (some .REVERSED) rfl (dispTry_REVERSED rest h)
  · intro rest h
    exact disp_glue _ _ rest 7 (some .VACATED) rfl (dispTry_VACATED rest h)
  · intro rest n g h hd
    obtain ⟨k, hk⟩ := hipk rest h
    rw [show dispTry (cs "AFFIRMED" ++ rest) =
          (match inPartLen rest with
           | none => some (8, some Disposition.AFFIRMED)
           | some k => some (8 + k, some Disposition.AFFIRMED_IN_PART)) by
        simp only [dispTry, eatLit_self_append], hk] at hd
    simp at hd
    exact hd.2.symm
  · intro rest n g h hd
    obtain ⟨k, hk⟩ := hipk rest h
    have eA : eatLit (cs "AFFIRMED") (cs "REMANDED" ++ rest) = none := rfl
    have eD : eatLit (cs "DISMISSED") (cs "REMANDED" ++ rest) = none := rfl
    rw [show dispTry (cs "REMANDED" ++ rest) =
          (match inPartLen rest with
           | none => some (8, some Disposition.REMANDED)
           | some k => some (8 + k, some Disposition.REMANDED_IN_PART)) by
        simp only [dispTry, eA, eD, eatLit_self_append], hk] at hd
    simp at hd
    exact hd.2.symm
  · intro rest n g h hd
    obtain ⟨k, hk⟩ := hipk rest h
    have eA : eatLit (cs "AFFIRMED") (cs "REVERSED" ++ rest) = none := rfl
    have eD : eatLit (cs "DISMISSED") (cs "REVERSED" ++ rest) = none := rfl
    have eM : eatLit (cs "REMANDED") (cs "REVERSED" ++ rest) = none := rfl
    rw [show dispTry (cs "REVERSED" ++ rest) =
          (match inPartLen rest with
           | none => some (8, some Disposition.REVERSED)
           | some k => some (8 + k, some Disposition.REVERSED_IN_PART)) by
        simp only [dispTry, eA, eD, eM, eatLit_self_append], hk] at hd
    simp at hd
    exact hd.2.symm
  · intro rest n g h hd
    obtain ⟨k, hk⟩ := hipk rest h
    have eA : eatLit (cs "AFFIRMED") (cs "VACATED" ++ rest) = none := rfl
    have eD : eatLit (cs "DISMISSED") (cs "VACATED" ++ rest) = none := rfl
    have eM : eatLit (cs "REMANDED") (cs "VACATED" ++ rest) = none := rfl
    have eR : eatLit (cs "REVERSED") (cs "VACATED" ++ rest) = none := rfl
    rw [show dispTry (cs "VACATED" ++ rest) =
          (match inPartLen rest with
           | none => some (7, some Disposition.VACATED)
           | some k => some (7 + k, some Disposition.VACATED_IN_PART)) by
        simp only [dispTry, eA, eD, eM, eR, eatLit_self_append], hk] at hd
    simp at hd
    exact hd.2.symm
  · intro rest n g h hd
    obtain ⟨k, hk⟩ := hipk rest h
    have eA : eatLit (cs "AFFIRMED") (cs "DISMISSED" ++ rest) = none := rfl
    rw [show dispTry (cs "DISMISSED" ++ rest) =
          (match inPartLen rest, improvLen rest with
           | some k, _ => some (9 + k, some Disposition.DISMISSED)
           | none, some k => some (9 + k, some Disposition.DISMISSED_AS_IMPROVIDENTLY_GRANTED)
           | none, none => some (9, none)) by
        simp only [dispTry, eA, eatLit_self_append], hk] at hd
    simp at hd
    exact hd.2.symm
  · rfl
  · intro rest h1 h2
    exact disp_glue _ _ rest 9 none rfl (dispTry_DISMISSED_plain rest h1 h2)

/-- Witness for the amended C5 theorem: the AFFIRMED, DISMISSED-IN-PART
and plain-DISMISSED parts applied at concrete remainders. -/
theorem disposition_extractor_amended_witness :
    inPartAfter (cs " and case REMANDED.") = false ∧
    improvLen (cs " and case REMANDED.") = none ∧
    inPartAfter (cs " IN PART.") = true ∧
    dispTry (cs "DISMISSED" ++ cs " IN PART.") = some (17, some Disposition.DISMISSED) ∧
    get_disposition_type (cs "AFFIRMED" ++ cs " and case REMANDED.") =
      .AFFIRMED :: get_disposition_type (cs " and case REMANDED.") ∧
    (some Disposition.DISMISSED : Option Disposition) = some Disposition.DISMISSED ∧
    get_disposition_type (cs "DISMISSED" ++ cs " and case REMANDED.") =
      get_disposition_type (cs " and case REMANDED.") :=
  ⟨by rfl, by rfl, by rfl, by rfl,
   disposition_extractor_amended.1 _ (by rfl),
   disposition_extractor_amended.2.2.2.2.2.2.2.2.1 (cs " IN PART.") 17
     (some Disposition.DISMISSED) (by rfl) (by rfl),
   disposition_extractor_amended.2.2.2.2.2.2.2.2.2.2 _ (by rfl) (by rfl)⟩

/-- Maximal leading digit run (`\d+`, greedy). -/
def digitRun (s : Str) : Nat := (s.takeWhile Char.isDigit).length

/-- Group 2 of the OrderSection.set_cases pattern at position `q`:
`.*?V.*?$|IN\s+RE.*?$` under re.M — either the rest of the line when it
contains a `V`, or `IN`, whitespace, `RE` and then the rest of that line.
Returns the group text and its length. -/
def g2At (q : Str) : Option (Str × Nat) :=
  let line := q.takeWhile (fun c => c ≠ '\n')
  if line.any (fun c => c = 'V') then some (line, line.length)
  else
    match eatLit (cs "IN") q with
    | none => none
    | some r1 =>
      match eatWSPlus r1 with
      | none => none
      | some (n, r2) =>
        match eatLit (cs "RE") r2 with
        | none => none
        | some r3 =>
          let rest := r3.takeWhile (fun c => c ≠ '\n')
          some (q.take (2 + n + 2 + rest.length), 2 + n + 2 + rest.length)

/-- The `\s+` between group 1 and group 2, greedy, followed by group 2.
Backtracking into a shorter `\s+` can never help (group 2 must start with
a non-space `IN` or contain a `V` the whitespace does not hold), so the
greedy run is final. -/
def tryTail (s : Str) : Option (Str × Nat) :=
  match eatWSPlus s with
  | none => none
  | some (w, q) =>
    match g2At q with
    | some (g2, len) => some (g2, w + len)
    | none => none

/-- Ascending enumeration of `\d+.*?\d` continuations: at each character,
if it is a digit try the tail there, else (and on tail failure) grow the
lazy `.*?`, stopping at a newline. -/
def alt1Search : Nat → Str → Str → Option (Str × Str × Nat)
  | 0, _, _ => none
  | _ + 1, _, [] => none
  | fuel + 1, acc, c :: t =>
    if c = '\n' then none
    else if c.isDigit then
      match tryTail t with
      | some (g2, tl) => some (acc ++ [c], g2, acc.length + 1 + tl)
      | none => alt1Search fuel (acc ++ [c]) t
    else alt1Search fuel (acc ++ [c]) t

/-- After the ascending phase fails, the engine shortens `\d+` itself:
candidate final-digit positions k-1 down to 1 inside the digit run. -/
def alt1Desc (s : Str) : Nat → Option (Str × Str × Nat)
  | 0 => none
  | i + 1 =>
    match tryTail (s.drop (i + 2)) with
    | some (g2, tl) => some (s.take (i + 2), g2, i + 2 + tl)
    | none => alt1Desc s i

def alt1At (s : Str) : Option (Str × Str × Nat) :=
  let k := digitRun s
  if k = 0 then none
  else
    match alt1Search (s.length + 1) (s.take k) (s.drop k) with
    | some r => some r
    | none => alt1Desc s (k - 1)

/-- The `\d+.*?ORIG\.` alternative: lazy growth to each `ORIG.`
occurrence, trying the tail there. -/
def alt2Search : Nat → Str → Str → Option (Str × Str × Nat)
  | 0, _, _ => none
  | _ + 1, _, [] => none
  | fuel + 1, acc, c :: t =>
    if c = '\n' then none
    else if startsW (cs "ORIG.") (c :: t) then
      match tryTail ((c :: t).drop 5) with
      | some (g2, tl) => some (acc ++ cs "ORIG.", g2, acc.length + 5 + tl)
      | none => alt2Search fuel (acc ++ [c]) t
    else alt2Search fuel (acc ++ [c]) t

def alt2At (s : Str) : Option (Str × Str × Nat) :=
  let k := digitRun s
  if k = 0 then none
  else alt2Search (s.length + 1) (s.take k) (s.drop k)

/-- One attempt of the set_cases pattern
`(\d+.*?\d|\d+.*?ORIG\.)\s+(.*?V.*?$|IN\s+RE.*?$)` at a position:
the first group alternative is exhausted before the second is tried. -/
def caseMatchAt (s : Str) : Option (Str × Str × Nat) :=
  match alt1At s with
  | some r => some r
  | none => alt2At s

/-- The re.M finditer scan of section.OrderSection.set_cases. -/
def findCasesF : Nat → Str → List (Str × Str)
  | 0, _ => []
  | _ + 1, [] => []
  | fuel + 1, c :: t =>
    match caseMatchAt (c :: t) with
    | some (g1, g2, len) => (g1, g2) :: findCasesF fuel ((c :: t).drop (max len 1))
    | none => findCasesF fuel t

def findCases (s : Str) : List (Str × Str) := findCasesF (s.length + 1) s

/-- section.OrderSection.set_cases: the matches, with the case name
whitespace-collapsed. -/
def set_cases (text : Str) : List (Str × Str) :=
  (findCases text).map (fun p => (p.1, remove_extra_whitespace p.2))

/-- section.OrderSection.get_cases_text: `'  '.join([number, name]).strip()`
per case. -/
def get_cases_text (cases : List (Str × Str)) : List Str :=
  cases.map (fun p => pyStrip (p.1 ++ cs "  " ++ p.2))

/-- The previously extracted case lines, joined back into one text, as the
idempotence claim re-feeds them to the extractor. -/
def rerunText (cases : List (Str × Str)) : Str := joinNl (get_cases_text cases)

example : set_cases (cs "12\n3 V") = [(cs "12", cs "3 V")] := by rfl

example : rerunText (set_cases (cs "12\n3 V")) = cs "12  3 V" := by rfl

example : set_cases (cs "12  3 V") = [(cs "12  3", cs "V")] := by rfl

example :
    set_cases (cs "21-100  BECERRA V. GRESHAM\n21-101  IN RE SMITH") =
    [(cs "21-100", cs "BECERRA V. GRESHAM"), (cs "21-101", cs "IN RE SMITH")] := by rfl

/-- Does `s` end with the literal `w`? -/
def endsWithW (w s : Str) : Bool := startsW w.reverse s.reverse

/-- The shape the extractor guarantees for a case name, plus the
digit-freedom the amended idempotence claim requires: nonempty,
single-line, whitespace-collapsed, digit-free, and containing a `V` or
starting with `IN RE`. -/
def nameWF (m : Str) : Bool :=
  !m.isEmpty && !(isPyWS (m.headD ' ')) && !(isPyWS (m.getLastD ' ')) &&
  m.all (fun c => c ≠ '\n') && m.all (fun c => !c.isDigit) &&
  decide (remove_extra_whitespace m = m) &&
  (m.any (fun c => c = 'V') || startsW (cs "IN RE") m)

/-- The shape the extractor guarantees for a docket, plus the
whitespace-freedom the amended idempotence claim requires: starts with a
digit, contains no whitespace, and either ends with a digit (with at least
two characters) or ends with the literal `ORIG.`. -/
def docketWF (n : Str) : Bool :=
  !n.isEmpty && (n.headD ' ').isDigit && n.all (fun c => !(isPyWS c)) &&
  ((n.getLastD ' ').isDigit && decide (2 ≤ n.length) || endsWithW (cs "ORIG.") n)

theorem startsW_iff {w s : Str} : startsW w s = true ↔ ∃ r, s = w ++ r := by
  induction w generalizing s with
  | nil => simp [startsW, eatLit]
  | cons c wt ih =>
    cases s with
    | nil => simp [startsW, eatLit]
    | cons d t =>
      by_cases hdc : d = c
      · subst hdc
        rw [show startsW (d :: wt) (d :: t) = startsW wt t from by
          simp [startsW, eatLit]]
        rw [ih]
        constructor
        · rintro ⟨r, rfl⟩
          exact ⟨r, rfl⟩
        · rintro ⟨r, hr⟩
          rw [List.cons_append] at hr
          injection hr with h1 h2
          exact ⟨r, h2⟩
      · rw [show startsW (c :: wt) (d :: t) = false from by
          simp [startsW, eatLit, hdc]]
        simp only [Bool.false_eq_true, false_iff, not_exists]
        intro r hr
        rw [List.cons_append] at hr
        injection hr with h1 h2
        exact hdc h1

theorem takeWhile_append_all {p : Char → Bool} {a : Str} (b : Str)
    (h : ∀ c ∈ a, p c = true) : (a ++ b).takeWhile p = a ++ b.takeWhile p := by
  induction a with
  | nil => simp
  | cons c t ih =>
    have hc := h c (List.mem_cons_self _ _)
    simp only [List.cons_append, List.takeWhile_cons, hc, if_true]
    rw [ih (fun d hd => h d (List.mem_cons_of_mem _ hd))]

theorem dropWhile_append_all {p : Char → Bool} {a : Str} (b : Str)
    (h : ∀ c ∈ a, p c = true) : (a ++ b).dropWhile p = b.dropWhile p := by
  induction a with
  | nil => simp
  | cons c t ih =>
    have hc := h c (List.mem_cons_self _ _)
    simp only [List.cons_append, List.dropWhile_cons, hc, if_true]
    exact ih (fun d hd => h d (List.mem_cons_of_mem _ hd))

theorem nameWF_spec {m : Str} (h : nameWF m = true) :
    m ≠ [] ∧ isPyWS (m.headD ' ') = false ∧ isPyWS (m.getLastD ' ') = false ∧
    (∀ c ∈ m, c ≠ '\n') ∧ (∀ c ∈ m, c.isDigit = false) ∧
    remove_extra_whitespace m = m ∧
    (m.any (fun c => c = 'V') = true ∨ startsW (cs "IN RE") m = true) := by
  simp only [nameWF, Bool.and_eq_true, Bool.or_eq_true, Bool.not_eq_true',
    List.all_eq_true, decide_eq_true_eq] at h
  obtain ⟨⟨⟨⟨⟨⟨h1, h2⟩, h3⟩, h4⟩, h5⟩, h6⟩, h7⟩ := h
  refine ⟨?_, h2, h3, fun c hc => by simpa using h4 c hc,
    fun c hc => by simpa using h5 c hc, h6, h7⟩
  intro hnil
  rw [hnil] at h1
  exact absurd h1 (by decide)

theorem headD_mem {l : Str} {x : Char} (h : l ≠ []) : l.headD x ∈ l := by
  cases l with
  | nil => exact absurd rfl h
  | cons c t => exact List.mem_cons_self _ _

theorem headD_append {a : Str} (b : Str) (x : Char) (h : a ≠ []) :
    (a ++ b).headD x = a.headD x := by
  cases a with
  | nil => exact absurd rfl h
  | cons c t => rfl

theorem getLastD_append_right {b : Str} (a : Str) (x : Char) (h : b ≠ []) :
    (a ++ b).getLastD x = b.getLastD x := by
  rcases List.eq_nil_or_concat b with rfl | ⟨b', e, rfl⟩
  · exact absurd rfl h
  · rw [List.concat_eq_append, ← List.append_assoc, List.getLastD_concat,
      List.getLastD_concat]

theorem pyStrip_noop {s : Str} (h1 : isPyWS (s.headD 'x') = false)
    (h2 : isPyWS (s.getLastD 'x') = false) : pyStrip s = s := by
  have hdw : ∀ (l : Str), isPyWS (l.headD 'x') = false → l.dropWhile isPyWS = l := by
    intro l hl
    cases l with
    | nil => rfl
    | cons c t => simp only [List.headD_cons] at hl; simp [List.dropWhile_cons, hl]
  have hrev : isPyWS (s.reverse.headD 'x') = false := by
    rcases List.eq_nil_or_concat s with rfl | ⟨s', e, rfl⟩
    · exact h2
    · rw [List.concat_eq_append] at h2 ⊢
      rw [List.getLastD_concat] at h2
      rw [List.reverse_append, List.reverse_cons, List.reverse_nil, List.nil_append,
        List.singleton_append, List.headD_cons]
      exact h2
  unfold pyStrip
  rw [hdw s h1, hdw s.reverse hrev, List.reverse_reverse]

theorem isPyWS_false_of_isDigit {c : Char} (h : c.isDigit = true) : isPyWS c = false := by
  simp only [isPyWS, Bool.or_eq_false_iff, decide_eq_false_iff_not]
  refine ⟨⟨⟨⟨⟨?_, ?_⟩, ?_⟩, ?_⟩, ?_⟩, ?_⟩ <;>
    (intro he; rw [he] at h; exact absurd h (by decide))

theorem ne_nl_of_nonws {c : Char} (h : isPyWS c = false) : c ≠ '\n' := by
  intro he
  rw [he] at h
  exact absurd h (by decide)

theorem startsW_self_append (w x : Str) : startsW w (w ++ x) = true := by
  rw [startsW, eatLit_self_append, Option.isSome_some]

theorem tryTail_nonws {s : Str} (h : isPyWS (s.headD 'x') = false) : tryTail s = none := by
  cases s with
  | nil => rfl
  | cons c t =>
    simp only [List.headD_cons] at h
    simp [tryTail, eatWSPlus, eatWSStar, List.takeWhile_cons, h]

theorem takeWhile_eq_self_of_length {p : Char → Bool} :
    ∀ {l : Str}, (l.takeWhile p).length = l.length → l.takeWhile p = l := by
  intro l
  induction l with
  | nil => intro _; rfl
  | cons c t ih =>
    intro h
    by_cases hc : p c = true
    · simp only [List.takeWhile_cons, hc, if_true, List.length_cons] at h ⊢
      rw [ih (by omega)]
    · rw [Bool.not_eq_true] at hc
      simp [List.takeWhile_cons, hc] at h

theorem takeWhile_all {p : Char → Bool} :
    ∀ {l : Str}, l.takeWhile p = l → ∀ c ∈ l, p c = true := by
  intro l
  induction l with
  | nil => intro _ c hc; cases hc
  | cons d t ih =>
    intro h c hc
    by_cases hd : p d = true
    · simp only [List.takeWhile_cons, hd, if_true, List.cons.injEq, true_and] at h
      rcases List.mem_cons.mp hc with rfl | hct
      · exact hd
      · exact ih h c hct
    · rw [Bool.not_eq_true] at hd
      simp [List.takeWhile_cons, hd] at h

theorem takeWhile_append_of_lt {p : Char → Bool} {a : Str} (b : Str)
    (h : (a.takeWhile p).length < a.length) :
    (a ++ b).takeWhile p = a.takeWhile p := by
  induction a with
  | nil => simp at h
  | cons c t ih =>
    by_cases hc : p c = true
    · simp only [List.takeWhile_cons, hc, if_true, List.length_cons] at h
      simp only [List.cons_append, List.takeWhile_cons, hc, if_true]
      rw [ih (by omega)]
    · rw [Bool.not_eq_true] at hc
      simp [List.cons_append, List.takeWhile_cons, hc]

theorem take_append_le {a : Str} (b : Str) {k : Nat} (h : k ≤ a.length) :
    (a ++ b).take k = a.take k := by
  rw [List.take_append_eq_append_take, Nat.sub_eq_zero_of_le h, List.take_zero,
    List.append_nil]

theorem drop_append_le {a : Str} (b : Str) {k : Nat} (h : k ≤ a.length) :
    (a ++ b).drop k = a.drop k ++ b := by
  rw [List.drop_append_eq_append_drop, Nat.sub_eq_zero_of_le h, List.drop_zero]

theorem suffix_append_cases {l a b : Str} (h : l <:+ a ++ b) :
    l <:+ b ∨ ∃ a', a' <:+ a ∧ a' ≠ [] ∧ l = a' ++ b := by
  induction a with
  | nil => exact Or.inl (by simpa using h)
  | cons c t ih =>
    rw [List.cons_append] at h
    rcases List.suffix_cons_iff.mp h with hl | hl
    · exact Or.inr ⟨c :: t, List.suffix_refl _, by simp, hl⟩
    · rcases ih hl with h1 | ⟨a', ha1, ha2, ha3⟩
      · exact Or.inl h1
      · exact Or.inr ⟨a', ha1.trans (List.suffix_cons c t), ha2, ha3⟩

theorem digitRun_head_pos {n : Str} {c : Char} {t : Str} (he : n = c :: t)
    (h : c.isDigit = true) : 1 ≤ digitRun n := by
  subst he
  simp [digitRun, List.takeWhile_cons, h]

theorem takeWhile_line {a b : Str} (hnl : ∀ c ∈ a, c ≠ '\n')
    (hb : b = [] ∨ ∃ r, b = '\n' :: r) :
    (a ++ b).takeWhile (fun c => c ≠ '\n') = a := by
  rw [takeWhile_append_all b (fun c hc => decide_eq_true (hnl c hc))]
  rcases hb with rfl | ⟨r, rfl⟩
  · simp
  · simp [List.takeWhile_cons]

theorem g2At_line {m tail : Str} (hm : nameWF m = true)
    (htail : tail = [] ∨ ∃ r, tail = '\n' :: r) :
    g2At (m ++ tail) = some (m, m.length) := by
  obtain ⟨hne, hhd, hlast, hnl, hdig, hrew, hvre⟩ := nameWF_spec hm
  have htk : (m ++ tail).takeWhile (fun c => c ≠ '\n') = m := takeWhile_line hnl htail
  simp only [g2At, htk]
  by_cases hV : m.any (fun c => c = 'V') = true
  · simp only [hV, if_true]
  · rw [Bool.not_eq_true] at hV
    simp only [hV, Bool.false_eq_true, if_false]
    have hIN : startsW (cs "IN RE") m = true := by
      rcases hvre with h | h
      · rw [h] at hV; cases hV
      · exact h
    obtain ⟨r5, rfl⟩ := startsW_iff.mp hIN
    have e1 : (cs "IN RE" ++ r5) ++ tail = cs "IN" ++ (cs " RE" ++ (r5 ++ tail)) := by
      rw [show cs "IN RE" = cs "IN" ++ cs " RE" from rfl]
      simp [List.append_assoc]
    have hIN2 : eatLit (cs "IN") ((cs "IN RE" ++ r5) ++ tail) =
        some (cs " RE" ++ (r5 ++ tail)) := by
      rw [e1, eatLit_self_append]
    have hWS : eatWSPlus (cs " RE" ++ (r5 ++ tail)) =
        some (1, cs "RE" ++ (r5 ++ tail)) := by
      rw [show cs " RE" ++ (r5 ++ tail) = ' ' :: ('R' :: ('E' :: (r5 ++ tail))) from rfl]
      simp [eatWSPlus, eatWSStar, List.takeWhile_cons, List.dropWhile_cons,
        show isPyWS ' ' = true by decide, show isPyWS 'R' = false by decide]
      rfl
    have hRE : eatLit (cs "RE") (cs "RE" ++ (r5 ++ tail)) = some (r5 ++ tail) :=
      eatLit_self_append _ _
    have hr5 : (r5 ++ tail).takeWhile (fun c => c ≠ '\n') = r5 :=
      takeWhile_line (fun c hc => hnl c (List.mem_append_right _ hc)) htail
    rw [hIN2]
    dsimp only
    rw [hWS]
    dsimp only
    rw [hRE]
    dsimp only
    rw [hr5]
    have hlen : 2 + 1 + 2 + r5.length = (cs "IN RE" ++ r5).length := by
      rw [List.length_append, show (cs "IN RE").length = 5 from rfl]
    rw [hlen, List.take_left]

theorem tryTail_line {m tail : Str} (hm : nameWF m = true)
    (htail : tail = [] ∨ ∃ r, tail = '\n' :: r) :
    tryTail (cs "  " ++ (m ++ tail)) = some (m, 2 + m.length) := by
  obtain ⟨hne, hhd, _, _, _, _, _⟩ := nameWF_spec hm
  have hws : eatWSPlus (cs "  " ++ (m ++ tail)) = some (2, m ++ tail) := by
    cases m with
    | nil => exact absurd rfl hne
    | cons mh mt =>
      simp only [List.headD_cons] at hhd
      rw [show cs "  " ++ ((mh :: mt) ++ tail) = ' ' :: (' ' :: (mh :: (mt ++ tail))) from rfl]
      simp [eatWSPlus, eatWSStar, List.takeWhile_cons, List.dropWhile_cons, hhd,
        show isPyWS ' ' = true by decide]
  rw [tryTail.eq_def, hws]
  dsimp only
  rw [g2At_line hm htail]

theorem alt1Search_none_gen {tail : Str} (htail : tail = [] ∨ ∃ r, tail = '\n' :: r) :
    ∀ (u acc : Str) (fuel : Nat), (∀ c ∈ u, c ≠ '\n') →
    (∀ c t, c.isDigit = true → (c :: t) <:+ u → tryTail (t ++ tail) = none) →
    alt1Search fuel acc (u ++ tail) = none := by
  intro u
  induction u with
  | nil =>
    intro acc fuel _ _
    rcases htail with rfl | ⟨r, rfl⟩
    · cases fuel <;> rfl
    · cases fuel with
      | zero => rfl
      | succ f => simp [alt1Search]
  | cons c u' ih =>
    intro acc fuel hnl hdig
    cases fuel with
    | zero => rfl
    | succ f =>
      have hc : c ≠ '\n' := hnl c (List.mem_cons_self _ _)
      rw [List.cons_append]
      simp only [alt1Search, hc, if_false]
      have ihh := ih (acc ++ [c]) f
        (fun d hd => hnl d (List.mem_cons_of_mem _ hd))
        (fun d t hdd hsuf => hdig d t hdd (hsuf.trans (List.suffix_cons c u')))
      by_cases hcd : c.isDigit = true
      · rw [if_pos hcd, hdig c u' hcd (List.suffix_refl _)]
        exact ihh
      · rw [if_neg hcd]
        exact ihh

theorem alt1Search_digit_end {m tail : Str} {d : Char}
    (hm : nameWF m = true) (htail : tail = [] ∨ ∃ r, tail = '\n' :: r)
    (hd : d.isDigit = true) :
    ∀ (u' acc : Str) (fuel : Nat), (∀ c ∈ u' ++ [d], isPyWS c = false) →
    u'.length < fuel →
    alt1Search fuel acc ((u' ++ [d]) ++ (cs "  " ++ (m ++ tail))) =
      some (acc ++ (u' ++ [d]), m, acc.length + u'.length + 1 + 2 + m.length) := by
  intro u'
  induction u' with
  | nil =>
    intro acc fuel _ hfuel
    cases fuel with
    | zero => omega
    | succ f =>
      rw [List.nil_append, List.singleton_append]
      have hdn : d ≠ '\n' := ne_nl_of_nonws (isPyWS_false_of_isDigit hd)
      simp only [alt1Search, hdn, if_false, hd, if_true, tryTail_line hm htail]
      simp
      omega
  | cons c u'' ih =>
    intro acc fuel hws hfuel
    cases fuel with
    | zero => omega
    | succ f =>
      have hcws : isPyWS c = false := hws c (List.mem_cons_self _ _)
      have hc : c ≠ '\n' := ne_nl_of_nonws hcws
      rw [List.cons_append, List.cons_append]
      simp only [alt1Search, hc, if_false]
      have hwstail : ∀ e ∈ u'' ++ [d], isPyWS e = false :=
        fun e he => hws e (List.mem_cons_of_mem _ he)
      have ihh := ih (acc ++ [c]) f hwstail (by simp at hfuel ⊢; omega)
      have hrw : alt1Search f (acc ++ [c]) ((u'' ++ [d]) ++ (cs "  " ++ (m ++ tail))) =
          some (acc ++ (c :: (u'' ++ [d])), m,
            acc.length + (u''.length + 1) + 1 + 2 + m.length) := by
        rw [ihh]
        simp only [List.append_assoc, List.singleton_append, List.length_append,
          List.length_singleton]
        rw [show acc.length + 1 + u''.length = acc.length + (u''.length + 1) by omega]
      by_cases hcd : c.isDigit = true
      · rw [if_pos hcd]
        have hnone : tryTail ((u'' ++ [d]) ++ (cs "  " ++ (m ++ tail))) = none := by
          apply tryTail_nonws
          rw [headD_append _ _ (by simp)]
          cases u'' with
          | nil => simpa using isPyWS_false_of_isDigit hd
          | cons e u3 => simpa using hwstail e (List.mem_cons_self _ _)
        rw [hnone]
        rw [hrw]
        simp [List.length_cons]
      · rw [if_neg hcd, hrw]
        simp [List.length_cons]

theorem alt1Desc_none (s : Str) :
    ∀ i : Nat, (∀ j, 2 ≤ j → j ≤ i + 1 → tryTail (s.drop j) = none) →
    alt1Desc s i = none := by
  intro i
  induction i with
  | zero => intro _; rfl
  | succ i ih =>
    intro h
    simp only [alt1Desc, h (i + 2) (by omega) (by omega)]
    exact ih (fun j h2 hj => h j h2 (by omega))

theorem alt2Search_orig {m tail : Str}
    (hm : nameWF m = true) (htail : tail = [] ∨ ∃ r, tail = '\n' :: r) :
    ∀ (u' acc : Str) (fuel : Nat), (∀ c ∈ u', isPyWS c = false) →
    u'.length < fuel →
    alt2Search fuel acc ((u' ++ cs "ORIG.") ++ (cs "  " ++ (m ++ tail))) =
      some (acc ++ (u' ++ cs "ORIG."), m, acc.length + u'.length + 5 + 2 + m.length) := by
  intro u'
  induction u' with
  | nil =>
    intro acc fuel _ hfuel
    cases fuel with
    | zero => omega
    | succ f =>
      rw [show (([] : Str) ++ cs "ORIG.") ++ (cs "  " ++ (m ++ tail)) =
        'O' :: (cs "RIG." ++ (cs "  " ++ (m ++ tail))) from rfl]
      have hOnl : ('O' : Char) ≠ '\n' := by decide
      have hst : startsW (cs "ORIG.") ('O' :: (cs "RIG." ++ (cs "  " ++ (m ++ tail)))) =
          true := startsW_self_append (cs "ORIG.") (cs "  " ++ (m ++ tail))
      have htt : tryTail (('O' :: (cs "RIG." ++ (cs "  " ++ (m ++ tail)))).drop 5) =
          some (m, 2 + m.length) := by
        rw [show ('O' :: (cs "RIG." ++ (cs "  " ++ (m ++ tail)))).drop 5 =
          (cs "ORIG." ++ (cs "  " ++ (m ++ tail))).drop (cs "ORIG.").length from rfl,
          List.drop_left]
        exact tryTail_line hm htail
      simp only [alt2Search, hOnl, if_false, hst, if_true, htt]
      simp
      omega
  | cons c u'' ih =>
    intro acc fuel hws hfuel
    cases fuel with
    | zero => omega
    | succ f =>
      have hcws : isPyWS c = false := hws c (List.mem_cons_self _ _)
      have hc : c ≠ '\n' := ne_nl_of_nonws hcws
      have hws'' : ∀ e ∈ u'', isPyWS e = false :=
        fun e he => hws e (List.mem_cons_of_mem _ he)
      rw [show ((c :: u'') ++ cs "ORIG.") ++ (cs "  " ++ (m ++ tail)) =
        c :: ((u'' ++ cs "ORIG.") ++ (cs "  " ++ (m ++ tail))) from by simp]
      have ihh := ih (acc ++ [c]) f hws'' (by simp at hfuel ⊢; omega)
      have hrw : alt2Search f (acc ++ [c]) ((u'' ++ cs "ORIG.") ++ (cs "  " ++ (m ++ tail))) =
          some (acc ++ ((c :: u'') ++ cs "ORIG."), m,
            acc.length + (u''.length + 1) + 5 + 2 + m.length) := by
        rw [ihh]
        simp only [List.append_assoc, List.singleton_append, List.length_append,
          List.length_singleton]
        rw [show acc.length + 1 + u''.length = acc.length + (u''.length + 1) by omega]
        rfl
      have hnone : tryTail ((c :: ((u'' ++ cs "ORIG.") ++ (cs "  " ++ (m ++ tail)))).drop 5) =
          none := by
        apply tryTail_nonws
        rw [show (c :: ((u'' ++ cs "ORIG.") ++ (cs "  " ++ (m ++ tail)))).drop 5 =
          ((c :: (u'' ++ cs "ORIG.")).drop 5) ++ (cs "  " ++ (m ++ tail)) from by
            rw [← List.cons_append]
            exact drop_append_le _ (by
              rw [List.length_cons, List.length_append,
                show (cs "ORIG.").length = 5 from rfl]
              omega)]
        have hlen5 : ((c :: (u'' ++ cs "ORIG.")).drop 5).length = u''.length + 1 := by
          rw [List.length_drop, List.length_cons, List.length_append,
            show (cs "ORIG.").length = 5 from rfl]
          omega
        have hne5 : (c :: (u'' ++ cs "ORIG.")).drop 5 ≠ [] := by
          intro he
          rw [he] at hlen5
          simp at hlen5
        rw [headD_append _ _ hne5]
        have hmem : ((c :: (u'' ++ cs "ORIG.")).drop 5).headD 'x' ∈ c :: (u'' ++ cs "ORIG.") :=
          List.drop_subset _ _ (headD_mem hne5)
        rcases List.mem_cons.mp hmem with he | hmem2
        · rw [he]; exact hcws
        · rcases List.mem_append.mp hmem2 with h3 | h3
          · exact hws'' _ h3
          · exact (by decide : ∀ e ∈ cs "ORIG.", isPyWS e = false) _ h3
      simp only [alt2Search, hc, if_false]
      by_cases hOR : startsW (cs "ORIG.") (c :: ((u'' ++ cs "ORIG.") ++ (cs "  " ++ (m ++ tail)))) = true
      · simp only [hOR, if_true, hnone]
        exact hrw
      · rw [Bool.not_eq_true] at hOR
        simp only [hOR, Bool.false_eq_true, if_false]
        exact hrw

theorem docketWF_spec {n : Str} (h : docketWF n = true) :
    n ≠ [] ∧ (n.headD ' ').isDigit = true ∧ (∀ c ∈ n, isPyWS c = false) ∧
    ((∃ n' d, n = n' ++ [d] ∧ d.isDigit = true ∧ 2 ≤ n.length) ∨
     (∃ n', n = n' ++ cs "ORIG.")) := by
  simp only [docketWF, Bool.and_eq_true, Bool.or_eq_true, Bool.not_eq_true',
    List.all_eq_true, decide_eq_true_eq] at h
  obtain ⟨⟨⟨h1, h2⟩, h3⟩, h4⟩ := h
  have hne : n ≠ [] := by
    intro hnil
    rw [hnil] at h1
    exact absurd h1 (by decide)
  refine ⟨hne, h2, fun c hc => by simpa using h3 c hc, ?_⟩
  rcases h4 with ⟨hlast, hlen⟩ | hor
  · left
    rcases List.eq_nil_or_concat n with he | ⟨n', d, he⟩
    · exact absurd he hne
    · rw [List.concat_eq_append] at he
      rw [he, List.getLastD_concat] at hlast
      exact ⟨n', d, he, hlast, hlen⟩
  · right
    rw [endsWithW] at hor
    obtain ⟨r, hr⟩ := startsW_iff.mp hor
    refine ⟨r.reverse, ?_⟩
    have h5 := congrArg List.reverse hr
    rw [List.reverse_reverse, List.reverse_append, List.reverse_reverse] at h5
    exact h5

theorem takeWhile_length_le (p : Char → Bool) (l : Str) :
    (l.takeWhile p).length ≤ l.length :=
  ( List.takeWhile_prefix p).length_le

theorem digitRun_append_ORIG (n' : Str) : digitRun (n' ++ cs "ORIG.") ≤ n'.length := by
  by_cases h : (n'.takeWhile Char.isDigit).length = n'.length
  · rw [digitRun,
      takeWhile_append_all (cs "ORIG.") (takeWhile_all (takeWhile_eq_self_of_length h)),
      show (cs "ORIG.").takeWhile Char.isDigit = [] from rfl, List.append_nil]
  · have hlt : (n'.takeWhile Char.isDigit).length < n'.length :=
      lt_of_le_of_ne (takeWhile_length_le _ _) h
    rw [digitRun, takeWhile_append_of_lt _ hlt]
    omega

theorem alt1At_line_digit {n' : Str} {d : Char} {m tail : Str}
    (hws : ∀ c ∈ n' ++ [d], isPyWS c = false)
    (hhd : (((n' ++ [d]) : Str).headD ' ').isDigit = true)
    (hn2 : 2 ≤ (n' ++ [d] : Str).length)
    (hd : d.isDigit = true)
    (hm : nameWF m = true) (htail : tail = [] ∨ ∃ r, tail = '\n' :: r) :
    alt1At ((n' ++ [d]) ++ (cs "  " ++ (m ++ tail))) =
      some (n' ++ [d], m, (n' ++ [d] : Str).length + 2 + m.length) := by
  obtain ⟨hmne, hmhd, hmlast, hmnl, hmdig, hmrew, hmvre⟩ := nameWF_spec hm
  have hd1 : 1 ≤ digitRun (n' ++ [d]) := by
    cases n' with
    | nil => simp [digitRun, List.takeWhile_cons, hd]
    | cons c t =>
      have hc : c.isDigit = true := by simpa using hhd
      exact digitRun_head_pos (show (c :: t) ++ [d] = c :: (t ++ [d]) from rfl) hc
  have hXtk : (cs "  " ++ (m ++ tail)).takeWhile Char.isDigit = [] := rfl
  have hassoc : cs "  " ++ (m ++ tail) = (cs "  " ++ m) ++ tail :=
    (List.append_assoc _ _ _).symm
  have hsm : ∀ c ∈ cs "  " ++ m, c ≠ '\n' := by
    intro c hc
    rcases List.mem_append.mp hc with h2 | h2
    · exact (by decide : ∀ e ∈ cs "  ", e ≠ '\n') c h2
    · exact hmnl c h2
  have hsdig : ∀ c t2, c.isDigit = true → (c :: t2) <:+ cs "  " ++ m →
      tryTail (t2 ++ tail) = none := by
    intro c t2 hcd hsuf
    exfalso
    have hcm : c ∈ cs "  " ++ m := hsuf.subset (List.mem_cons_self _ _)
    rcases List.mem_append.mp hcm with h2 | h2
    · rw [(by decide : ∀ e ∈ cs "  ", e.isDigit = false) c h2] at hcd
      cases hcd
    · rw [hmdig c h2] at hcd; cases hcd
  by_cases hall : digitRun (n' ++ [d]) = (n' ++ [d] : Str).length
  · have halld : ∀ c ∈ n' ++ [d], c.isDigit = true :=
      takeWhile_all (takeWhile_eq_self_of_length hall)
    have hrs : digitRun ((n' ++ [d]) ++ (cs "  " ++ (m ++ tail))) =
        (n' ++ [d] : Str).length := by
      rw [digitRun, takeWhile_append_all _ halld, hXtk, List.append_nil]
    simp only [alt1At, hrs]
    rw [if_neg (by simp), List.take_left, List.drop_left]
    have hnone : alt1Search (((n' ++ [d]) ++ (cs "  " ++ (m ++ tail))).length + 1)
        (n' ++ [d]) (cs "  " ++ (m ++ tail)) = none := by
      rw [hassoc]
      exact alt1Search_none_gen htail _ _ _ hsm hsdig
    rw [hnone]
    dsimp only
    have hk1 : (n' ++ [d] : Str).length - 1 = ((n' ++ [d] : Str).length - 2) + 1 := by
      omega
    rw [hk1]
    simp only [alt1Desc]
    rw [show (n' ++ [d] : Str).length - 2 + 2 = (n' ++ [d] : Str).length by omega,
      List.drop_left, tryTail_line hm htail, List.take_left]
    dsimp only
    rw [← Nat.add_assoc]
  · have hdlt : (( n' ++ [d] : Str).takeWhile Char.isDigit).length <
        (n' ++ [d] : Str).length :=
      lt_of_le_of_ne (takeWhile_length_le _ _) hall
    have hrs : digitRun ((n' ++ [d]) ++ (cs "  " ++ (m ++ tail))) = digitRun (n' ++ [d]) := by
      rw [digitRun, takeWhile_append_of_lt _ hdlt]
      rfl
    have hdle : digitRun (n' ++ [d]) ≤ n'.length := by
      have := hdlt
      rw [← digitRun] at this
      simp only [List.length_append, List.length_singleton] at this
      omega
    have hdropn : ((n' ++ [d]) : Str).drop (digitRun (n' ++ [d])) =
        n'.drop (digitRun (n' ++ [d])) ++ [d] := drop_append_le _ hdle
    simp only [alt1At, hrs]
    rw [if_neg (by omega)]
    rw [take_append_le _ (by simp only [List.length_append, List.length_singleton]; omega),
      take_append_le _ hdle,
      drop_append_le _ (by simp only [List.length_append, List.length_singleton]; omega),
      hdropn]
    have hsearch := alt1Search_digit_end hm htail hd (n'.drop (digitRun (n' ++ [d])))
      (((n' ++ [d]) : Str).take (digitRun (n' ++ [d])))
      ((((n' ++ [d]) ++ (cs "  " ++ (m ++ tail))) : Str).length + 1)
      (by
        intro c hc
        rw [← hdropn] at hc
        exact hws c (List.drop_subset _ _ hc))
      (by
        simp only [List.length_append, List.length_singleton, List.length_drop]
        omega)
    rw [take_append_le _ hdle] at hsearch
    rw [hsearch]
    dsimp only
    have he1 : n'.take (digitRun (n' ++ [d])) ++ (n'.drop (digitRun (n' ++ [d])) ++ [d]) =
        n' ++ [d] := by
      rw [← List.append_assoc, List.take_append_drop]
    rw [he1]
    have he2 : (n'.take (digitRun (n' ++ [d]))).length +
        (n'.drop (digitRun (n' ++ [d]))).length + 1 + 2 + m.length =
        (n' ++ [d] : Str).length + 2 + m.length := by
      simp only [List.length_take, List.length_drop, List.length_append,
        List.length_singleton]
      omega
    rw [he2]

theorem drop_ne_nil_of_lt {l : Str} {j : Nat} (h : j < l.length) : l.drop j ≠ [] := by
  intro he
  have h2 : (l.drop j).length = l.length - j := List.length_drop _ _
  rw [he] at h2
  simp only [List.length_nil] at h2
  omega

theorem tryTail_none_inside {n X : Str} {j : Nat} (hws : ∀ c ∈ n, isPyWS c = false)
    (hj : j < n.length) : tryTail (n.drop j ++ X) = none := by
  apply tryTail_nonws
  rw [headD_append _ _ (drop_ne_nil_of_lt hj)]
  exact hws _ (List.drop_subset _ _ (headD_mem (drop_ne_nil_of_lt hj)))

theorem alt1At_line_orig {n' m tail : Str}
    (hws : ∀ c ∈ n' ++ cs "ORIG.", isPyWS c = false)
    (hhd : (((n' ++ cs "ORIG.") : Str).headD ' ').isDigit = true)
    (hm : nameWF m = true) (htail : tail = [] ∨ ∃ r, tail = '\n' :: r) :
    alt1At ((n' ++ cs "ORIG.") ++ (cs "  " ++ (m ++ tail))) = none := by
  obtain ⟨hmne, hmhd, hmlast, hmnl, hmdig, hmrew, hmvre⟩ := nameWF_spec hm
  have hassoc : cs "  " ++ (m ++ tail) = (cs "  " ++ m) ++ tail :=
    (List.append_assoc _ _ _).symm
  have hnlen : ((n' ++ cs "ORIG.") : Str).length = n'.length + 5 := by
    rw [List.length_append, show (cs "ORIG.").length = 5 from rfl]
  have hd1 : 1 ≤ digitRun (n' ++ cs "ORIG.") := by
    cases n' with
    | nil =>
      rw [List.nil_append] at hhd
      exact absurd hhd (by decide)
    | cons c t =>
      have hc : c.isDigit = true := by simpa using hhd
      exact digitRun_head_pos (show (c :: t) ++ cs "ORIG." = c :: (t ++ cs "ORIG.") from rfl) hc
  have hdle : digitRun (n' ++ cs "ORIG.") ≤ n'.length := digitRun_append_ORIG n'
  have hdlt : (((n' ++ cs "ORIG.") : Str).takeWhile Char.isDigit).length <
      ((n' ++ cs "ORIG.") : Str).length := by
    have : (((n' ++ cs "ORIG.") : Str).takeWhile Char.isDigit).length =
        digitRun (n' ++ cs "ORIG.") := rfl
    omega
  have hrs : digitRun ((n' ++ cs "ORIG.") ++ (cs "  " ++ (m ++ tail))) =
      digitRun (n' ++ cs "ORIG.") := by
    rw [digitRun, takeWhile_append_of_lt _ hdlt]
    rfl
  simp only [alt1At, hrs]
  rw [if_neg (by omega)]
  have hdropS : ((n' ++ cs "ORIG.") ++ (cs "  " ++ (m ++ tail))).drop
      (digitRun (n' ++ cs "ORIG.")) =
      (((n' ++ cs "ORIG.") : Str).drop (digitRun (n' ++ cs "ORIG.")) ++ (cs "  " ++ m)) ++
        tail := by
    rw [drop_append_le _ (by omega), hassoc, ← List.append_assoc]
  rw [hdropS]
  have hnone : alt1Search
      (((n' ++ cs "ORIG.") ++ (cs "  " ++ (m ++ tail))).length + 1)
      (((n' ++ cs "ORIG.") ++ (cs "  " ++ (m ++ tail))).take (digitRun (n' ++ cs "ORIG.")))
      ((((n' ++ cs "ORIG.") : Str).drop (digitRun (n' ++ cs "ORIG.")) ++ (cs "  " ++ m)) ++
        tail) = none := by
    apply alt1Search_none_gen htail
    · intro c hc
      rcases List.mem_append.mp hc with h2 | h2
      · exact ne_nl_of_nonws (hws c (List.drop_subset _ _ h2))
      · rcases List.mem_append.mp h2 with h3 | h3
        · exact (by decide : ∀ e ∈ cs "  ", e ≠ '\n') c h3
        · exact hmnl c h3
    · intro c t2 hcd hsuf
      rcases suffix_append_cases hsuf with h2 | ⟨a', ha1, ha2, ha3⟩
      · exfalso
        have hcm : c ∈ cs "  " ++ m := h2.subset (List.mem_cons_self _ _)
        rcases List.mem_append.mp hcm with h3 | h3
        · rw [(by decide : ∀ e ∈ cs "  ", e.isDigit = false) c h3] at hcd
          cases hcd
        · rw [hmdig c h3] at hcd; cases hcd
      · cases a' with
        | nil => exact absurd rfl ha2
        | cons ac a'' =>
          rw [List.cons_append] at ha3
          injection ha3 with hc3 ht3
          cases a'' with
          | nil =>
            exfalso
            subst hc3
            have hsufn : [c] <:+ n' ++ cs "ORIG." :=
              ha1.trans (List.drop_suffix _ _)
            obtain ⟨pre, hpre⟩ := hsufn
            have hlast : c = ((n' ++ cs "ORIG.") : Str).getLastD 'x' := by
              rw [← hpre, List.getLastD_concat]
            rw [show cs "ORIG." = cs "ORIG" ++ ['.'] from rfl, ← List.append_assoc,
              List.getLastD_concat] at hlast
            rw [hlast] at hcd
            exact absurd hcd (by decide)
          | cons e a3 =>
            rw [ht3, List.append_assoc]
            apply tryTail_nonws
            rw [show (e :: a3) ++ ((cs "  " ++ m) ++ tail) =
              e :: (a3 ++ ((cs "  " ++ m) ++ tail)) from rfl, List.headD_cons]
            have he1 : e ∈ ac :: (e :: a3) := List.mem_cons_of_mem _ (List.mem_cons_self _ _)
            exact hws e (List.drop_subset _ _ (ha1.subset he1))
  rw [hnone]
  dsimp only
  apply alt1Desc_none
  intro j h2 hj
  have hjle : j ≤ digitRun (n' ++ cs "ORIG.") := by omega
  rw [drop_append_le _ (by omega)]
  exact tryTail_none_inside hws (by omega)

theorem alt2At_line_orig {n' m tail : Str}
    (hws : ∀ c ∈ n' ++ cs "ORIG.", isPyWS c = false)
    (hhd : (((n' ++ cs "ORIG.") : Str).headD ' ').isDigit = true)
    (hm : nameWF m = true) (htail : tail = [] ∨ ∃ r, tail = '\n' :: r) :
    alt2At ((n' ++ cs "ORIG.") ++ (cs "  " ++ (m ++ tail))) =
      some (n' ++ cs "ORIG.", m, ((n' ++ cs "ORIG.") : Str).length + 2 + m.length) := by
  have hnlen : ((n' ++ cs "ORIG.") : Str).length = n'.length + 5 := by
    rw [List.length_append, show (cs "ORIG.").length = 5 from rfl]
  have hd1 : 1 ≤ digitRun (n' ++ cs "ORIG.") := by
    cases n' with
    | nil =>
      rw [List.nil_append] at hhd
      exact absurd hhd (by decide)
    | cons c t =>
      have hc : c.isDigit = true := by simpa using hhd
      exact digitRun_head_pos (show (c :: t) ++ cs "ORIG." = c :: (t ++ cs "ORIG.") from rfl) hc
  have hdle : digitRun (n' ++ cs "ORIG.") ≤ n'.length := digitRun_append_ORIG n'
  have hdlt : (((n' ++ cs "ORIG.") : Str).takeWhile Char.isDigit).length <
      ((n' ++ cs "ORIG.") : Str).length := by
    have : (((n' ++ cs "ORIG.") : Str).takeWhile Char.isDigit).length =
        digitRun (n' ++ cs "ORIG.") := rfl
    omega
  have hrs : digitRun ((n' ++ cs "ORIG.") ++ (cs "  " ++ (m ++ tail))) =
      digitRun (n' ++ cs "ORIG.") := by
    rw [digitRun, takeWhile_append_of_lt _ hdlt]
    rfl
  simp only [alt2At, hrs]
  rw [if_neg (by omega)]
  rw [take_append_le _ (by omega), take_append_le _ hdle,
    drop_append_le _ (by omega), drop_append_le _ hdle]
  have hsearch := alt2Search_orig hm htail (n'.drop (digitRun (n' ++ cs "ORIG.")))
    (n'.take (digitRun (n' ++ cs "ORIG.")))
    (((n' ++ cs "ORIG.") ++ (cs "  " ++ (m ++ tail))).length + 1)
    (fun c hc => hws c (List.mem_append_left _ (List.drop_subset _ _ hc)))
    (by
      simp only [List.length_append, List.length_drop]
      omega)
  rw [hsearch]
  have he1 : n'.take (digitRun (n' ++ cs "ORIG.")) ++
      (n'.drop (digitRun (n' ++ cs "ORIG.")) ++ cs "ORIG.") = n' ++ cs "ORIG." := by
    rw [← List.append_assoc, List.take_append_drop]
  rw [he1]
  have he2 : (n'.take (digitRun (n' ++ cs "ORIG."))).length +
      (n'.drop (digitRun (n' ++ cs "ORIG."))).length + 5 + 2 + m.length =
      ((n' ++ cs "ORIG.") : Str).length + 2 + m.length := by
    simp only [List.length_take, List.length_drop]
    omega
  rw [he2]

theorem caseMatchAt_line {n m tail : Str} (hn : docketWF n = true) (hm : nameWF m = true)
    (htail : tail = [] ∨ ∃ r, tail = '\n' :: r) :
    caseMatchAt (n ++ (cs "  " ++ (m ++ tail))) = some (n, m, n.length + 2 + m.length) := by
  obtain ⟨hne, hhd, hws, hshape⟩ := docketWF_spec hn
  rcases hshape with ⟨n', d, rfl, hd, hn2⟩ | ⟨n', rfl⟩
  · simp only [caseMatchAt, alt1At_line_digit hws hhd hn2 hd hm htail]
  · simp only [caseMatchAt, alt1At_line_orig hws hhd hm htail]
    exact alt2At_line_orig hws hhd hm htail

theorem caseMatchAt_newline (r : Str) : caseMatchAt ('\n' :: r) = none := by
  have h1 : digitRun ('\n' :: r) = 0 := by
    simp [digitRun, List.takeWhile_cons, show ('\n').isDigit = false from rfl]
  simp [caseMatchAt, alt1At, alt2At, h1]

theorem findCasesF_of_some {s : Str} {fuel : Nat} {g1 g2 : Str} {len : Nat}
    (hm : caseMatchAt s = some (g1, g2, len)) (hlen : 1 ≤ len) :
    findCasesF (fuel + 1) s = (g1, g2) :: findCasesF fuel (s.drop len) := by
  cases s with
  | nil => rw [show caseMatchAt [] = none from rfl] at hm; cases hm
  | cons c t =>
    rw [show findCasesF (fuel + 1) (c :: t) = (match caseMatchAt (c :: t) with
      | some (g1, g2, len) => (g1, g2) :: findCasesF fuel ((c :: t).drop (max len 1))
      | none => findCasesF fuel t) from rfl, hm]
    dsimp only
    rw [show max len 1 = len by omega]

theorem findCasesF_of_none {c : Char} {t : Str} {fuel : Nat}
    (hm : caseMatchAt (c :: t) = none) :
    findCasesF (fuel + 1) (c :: t) = findCasesF fuel t := by
  rw [show findCasesF (fuel + 1) (c :: t) = (match caseMatchAt (c :: t) with
    | some (g1, g2, len) => (g1, g2) :: findCasesF fuel ((c :: t).drop (max len 1))
    | none => findCasesF fuel t) from rfl, hm]

theorem findCasesF_nil : ∀ fuel : Nat, findCasesF fuel [] = [] := by
  intro fuel
  cases fuel <;> rfl

theorem findCasesF_lines :
    ∀ (ps : List (Str × Str)) (fuel : Nat),
    (∀ p ∈ ps, docketWF p.1 = true ∧ nameWF p.2 = true) →
    (joinNl (ps.map (fun p => p.1 ++ cs "  " ++ p.2))).length < fuel →
    findCasesF fuel (joinNl (ps.map (fun p => p.1 ++ cs "  " ++ p.2))) = ps := by
  intro ps
  induction ps with
  | nil =>
    intro fuel _ _
    exact findCasesF_nil fuel
  | cons p ps ih =>
    intro fuel hwf hfuel
    have hp := hwf p (List.mem_cons_self _ _)
    have hwf2 : ∀ q ∈ ps, docketWF q.1 = true ∧ nameWF q.2 = true :=
      fun q hq => hwf q (List.mem_cons_of_mem _ hq)
    have hLlen : (p.1 ++ cs "  " ++ p.2 : Str).length = p.1.length + 2 + p.2.length := by
      rw [List.length_append, List.length_append, show (cs "  ").length = 2 from rfl]
    cases ps with
    | nil =>
      simp only [List.map_cons, List.map_nil] at hfuel ⊢
      have hjoin1 : joinNl [p.1 ++ cs "  " ++ p.2] = p.1 ++ (cs "  " ++ p.2) := by
        rw [show joinNl [p.1 ++ cs "  " ++ p.2] = p.1 ++ cs "  " ++ p.2 from rfl,
          List.append_assoc]
      rw [hjoin1] at hfuel ⊢
      have hmatch : caseMatchAt (p.1 ++ (cs "  " ++ p.2)) =
          some (p.1, p.2, p.1.length + 2 + p.2.length) := by
        have h2 := caseMatchAt_line hp.1 hp.2 (Or.inl rfl)
        rwa [List.append_nil] at h2
      have hLlen2 : (p.1 ++ (cs "  " ++ p.2) : Str).length =
          p.1.length + 2 + p.2.length := by
        rw [← List.append_assoc, hLlen]
      cases fuel with
      | zero => omega
      | succ F =>
        rw [findCasesF_of_some hmatch (by omega)]
        rw [show p.1.length + 2 + p.2.length = (p.1 ++ (cs "  " ++ p.2) : Str).length by
          rw [hLlen2]]
        rw [List.drop_length, findCasesF_nil]
    | cons q ps2 =>
      have hjoin : joinNl (((p :: q :: ps2).map (fun r => r.1 ++ cs "  " ++ r.2)) : List Str) =
          (p.1 ++ cs "  " ++ p.2) ++
            ('\n' :: joinNl ((q :: ps2).map (fun r => r.1 ++ cs "  " ++ r.2))) := rfl
      rw [hjoin] at hfuel ⊢
      have hlen2 : ((p.1 ++ cs "  " ++ p.2) ++
          ('\n' :: joinNl ((q :: ps2).map (fun r => r.1 ++ cs "  " ++ r.2))) : Str).length =
          p.1.length + 2 + p.2.length + 1 +
            (joinNl ((q :: ps2).map (fun r => r.1 ++ cs "  " ++ r.2))).length := by
        rw [List.length_append, hLlen, List.length_cons]
        omega
      have hmatch : caseMatchAt ((p.1 ++ cs "  " ++ p.2) ++
          ('\n' :: joinNl ((q :: ps2).map (fun r => r.1 ++ cs "  " ++ r.2)))) =
          some (p.1, p.2, p.1.length + 2 + p.2.length) := by
        have h2 := caseMatchAt_line hp.1 hp.2
          (Or.inr ⟨joinNl ((q :: ps2).map (fun r => r.1 ++ cs "  " ++ r.2)), rfl⟩)
        rwa [show p.1 ++ (cs "  " ++ (p.2 ++
            ('\n' :: joinNl ((q :: ps2).map (fun r => r.1 ++ cs "  " ++ r.2))))) =
          (p.1 ++ cs "  " ++ p.2) ++
            ('\n' :: joinNl ((q :: ps2).map (fun r => r.1 ++ cs "  " ++ r.2))) from by
          simp [List.append_assoc]] at h2
      cases fuel with
      | zero => omega
      | succ F =>
        rw [findCasesF_of_some hmatch (by omega)]
        rw [show p.1.length + 2 + p.2.length = (p.1 ++ cs "  " ++ p.2 : Str).length by
          rw [hLlen]]
        rw [List.drop_left]
        cases F with
        | zero => rw [hlen2] at hfuel; omega
        | succ F2 =>
          rw [findCasesF_of_none (caseMatchAt_newline _)]
          rw [ih F2 hwf2 (by rw [hlen2] at hfuel; omega)]

theorem findCases_lines (ps : List (Str × Str))
    (hwf : ∀ p ∈ ps, docketWF p.1 = true ∧ nameWF p.2 = true) :
    findCases (joinNl (ps.map (fun p => p.1 ++ cs "  " ++ p.2))) = ps :=
  findCasesF_lines ps _ hwf (Nat.lt_succ_self _)

theorem headD_default_irrel {l : Str} (h : l ≠ []) (x y : Char) : l.headD x = l.headD y := by
  cases l with
  | nil => exact absurd rfl h
  | cons c t => rfl

theorem getLastD_default_irrel {l : Str} (h : l ≠ []) (x y : Char) :
    l.getLastD x = l.getLastD y := by
  rcases List.eq_nil_or_concat l with rfl | ⟨l', e, rfl⟩
  · exact absurd rfl h
  · rw [List.concat_eq_append, List.getLastD_concat, List.getLastD_concat]

theorem get_cases_text_wf (ps : List (Str × Str))
    (hwf : ∀ p ∈ ps, docketWF p.1 = true ∧ nameWF p.2 = true) :
    get_cases_text ps = ps.map (fun p => p.1 ++ cs "  " ++ p.2) := by
  induction ps with
  | nil => rfl
  | cons p t ih =>
    obtain ⟨hn, hm⟩ := hwf p (List.mem_cons_self _ _)
    obtain ⟨hnne, hnhd, _, _⟩ := docketWF_spec hn
    obtain ⟨hmne, _, hmlast, _, _, _, _⟩ := nameWF_spec hm
    have hstrip : pyStrip (p.1 ++ cs "  " ++ p.2) = p.1 ++ cs "  " ++ p.2 := by
      apply pyStrip_noop
      · rw [headD_append _ _ (by simp [hnne]), headD_append _ _ hnne,
          headD_default_irrel hnne 'x' ' ']
        exact isPyWS_false_of_isDigit hnhd
      · rw [getLastD_append_right _ _ hmne, getLastD_default_irrel hmne 'x' ' ']
        exact hmlast
    rw [get_cases_text, List.map_cons, List.map_cons, hstrip]
    rw [get_cases_text] at ih
    rw [ih (fun q hq => hwf q (List.mem_cons_of_mem _ hq))]

theorem set_cases_map_id (ps : List (Str × Str))
    (h : ∀ p ∈ ps, remove_extra_whitespace p.2 = p.2) :
    ps.map (fun p => (p.1, remove_extra_whitespace p.2)) = ps := by
  induction ps with
  | nil => rfl
  | cons p t ih =>
    rw [List.map_cons, h p (List.mem_cons_self _ _),
      ih (fun q hq => h q (List.mem_cons_of_mem _ hq))]

/-- C7 counterexample: the extractor is not idempotent on its own rendered
output.  On the text `"12\n3 V"` the pattern's multi-line lazy `\d+.*?\d`
match pairs docket `12` with name `3 V`; re-rendering that case as
`"12  3 V"` and re-extracting regroups it as docket `12  3` with name `V`. -/
theorem caseExtractor_counterexample :
    set_cases (rerunText (set_cases (cs "12\n3 V"))) ≠ set_cases (cs "12\n3 V") := by
  decide

/-- C7, amended: running OrderSection.set_cases on the re-rendered
`get_cases_text` output reproduces the first extraction exactly, provided
every extracted case is well formed in the shape the extractor is meant to
produce - a whitespace-free docket that starts with a digit and ends with a
digit (two or more characters) or with `ORIG.`, and a digit-free,
single-line, whitespace-collapsed nonempty name that contains a `V` or
starts with `IN RE`.  Without the well-formedness proviso the claim is
false (see the counterexample). -/
theorem caseExtractor_idempotent_amended (t : Str)
    (h : ∀ p ∈ set_cases t, docketWF p.1 = true ∧ nameWF p.2 = true) :
    set_cases (rerunText (set_cases t)) = set_cases t := by
  have hrw : ∀ p ∈ set_cases t, remove_extra_whitespace p.2 = p.2 :=
    fun p hp => (nameWF_spec (h p hp).2).2.2.2.2.2.1
  have h1 : rerunText (set_cases t) =
      joinNl ((set_cases t).map (fun p => p.1 ++ cs "  " ++ p.2)) := by
    rw [rerunText, get_cases_text_wf _ h]
  rw [h1]
  have h2 : set_cases (joinNl ((set_cases t).map (fun p => p.1 ++ cs "  " ++ p.2))) =
      (findCases (joinNl ((set_cases t).map (fun p => p.1 ++ cs "  " ++ p.2)))).map
        (fun p => (p.1, remove_extra_whitespace p.2)) := rfl
  rw [h2, findCases_lines _ h, set_cases_map_id _ hrw]

/-- Witness for the amended C7 theorem: a two-case order-section text -
one `V.` case and one `IN RE` case - whose extraction is well formed, and
on which re-extraction of the rendered cases is the identity. -/
theorem caseExtractor_idempotent_amended_witness :
    (∀ p ∈ set_cases (cs "21-100  BECERRA V. GRESHAM\n21-101  IN RE SMITH"),
      docketWF p.1 = true ∧ nameWF p.2 = true) ∧
    set_cases (rerunText (set_cases (cs "21-100  BECERRA V. GRESHAM\n21-101  IN RE SMITH"))) =
      set_cases (cs "21-100  BECERRA V. GRESHAM\n21-101  IN RE SMITH") :=
  ⟨by decide, caseExtractor_idempotent_amended _ (by decide)⟩
